import Mathlib

/-!
Verification of the GameMaker asset-viewer core (`gm_asset_viewer.py`):
the `data.win` chunk scanner, the per-kind record decoders, and the room
renderer's draw-list ordering, tileset cache and sprite-frame
reconstruction.

Modelling conventions:
* A byte buffer (`bytes` in Python) is a `DW`: a byte-valued function
  together with a size.  `struct.unpack_from('<I', data, o)` becomes the
  little-endian combination of `byte o .. byte (o+3)`; reads are modelled
  total (out-of-range bytes read as the function's value there), and every
  theorem only exercises reads that the source's own guards keep in
  bounds.
* Python `int` arithmetic such as `ptr >= size - 64` (which may compare
  against a negative number) is translated to the equivalent `Nat`
  comparison `¬ (ptr + 64 < size)`; the equivalence `ptr < size - 64 ↔
  ptr + 64 < size` holds for all naturals, matching the Python integers.
* Strings decoded from the buffer are kept as their byte sequences
  (`List Nat`); UTF-8 decoding with `errors='replace'` maps nonempty byte
  sequences to nonempty strings and the empty sequence to the empty
  string, so emptiness of names is faithfully represented.
* `f32` fields (volume, tile scales, ...) are kept as their raw 32-bit
  little-endian patterns; no claim depends on floating-point arithmetic.
* Python `dict` is an association list; insertion removes any previous
  binding of the key and appends the new one, so lookup of a key returns
  the most recently inserted value, exactly as in CPython.
-/

set_option maxRecDepth 1000000

set_option maxHeartbeats 1000000

namespace GM

/-- A loaded `data.win` byte buffer: byte contents and total size.
Mirrors `DataWin.data` / `DataWin.size` in the source. -/
structure DW where
  byte : Nat → Nat
  size : Nat

/-- Build a buffer from an explicit list of bytes. -/
def mkDW (bs : List Nat) : DW :=
  ⟨fun i => bs.getD i 0, bs.length⟩

/-- Little-endian 16-bit read, `DataWin.u16`. -/
def DW.u16 (d : DW) (o : Nat) : Nat :=
  d.byte o + 256 * d.byte (o + 1)

/-- Little-endian 32-bit read, `DataWin.u32`. -/
def DW.u32 (d : DW) (o : Nat) : Nat :=
  d.byte o + 256 * d.byte (o + 1) + 65536 * d.byte (o + 2) +
    16777216 * d.byte (o + 3)

/-- Signed 32-bit read (two's complement), `DataWin.i32`. -/
def DW.i32 (d : DW) (o : Nat) : Int :=
  let v := d.u32 o
  if v < 2147483648 then (v : Int) else (v : Int) - 4294967296

/-- Signed 16-bit read, `DataWin.i16`. -/
def DW.i16 (d : DW) (o : Nat) : Int :=
  let v := d.u16 o
  if v < 32768 then (v : Int) else (v : Int) - 65536

/-- Big-endian 32-bit read (used for PNG sub-block lengths,
`struct.unpack('>I', ...)` in `_extract_png`). -/
def DW.be32 (d : DW) (o : Nat) : Nat :=
  16777216 * d.byte o + 65536 * d.byte (o + 1) + 256 * d.byte (o + 2) +
    d.byte (o + 3)

/-- The byte range `data[a:b]` (callers pass `b ≤ size`; Python's slice
clamping is applied by the callers via `min`). -/
def DW.slice (d : DW) (a b : Nat) : List Nat :=
  (List.range (b - a)).map fun k => d.byte (a + k)

/-- `DataWin.c_str`: bounded null-terminated string read.  Returns the
byte sequence before the first NUL found within a 200-byte window
(clamped at the buffer end); returns the empty sequence when the offset
is zero or out of range, when the first byte is already NUL, or when no
NUL is found in the window — exactly the `end > o` test of the source. -/
def DW.cStr (d : DW) (o : Nat) : List Nat :=
  if o = 0 ∨ d.size ≤ o then []
  else
    match (List.range (min (o + 200) d.size - o)).find? (fun k => d.byte (o + k) == 0) with
    | none => []
    | some k => if 0 < k then d.slice o (o + k) else []

/-- ASCII bytes of a string literal (used for synthesized record names
such as `"sprite_7"`). -/
def strBytes (s : String) : List Nat :=
  s.data.map Char.toNat

/-- One scanned chunk: tag, offset, declared size, payload start.
Mirrors the `Chunk` dataclass (the decoded ASCII `name` is omitted; the
numeric tag `cid` is the authoritative key). -/
structure Chunk where
  cid : Nat
  offset : Nat
  size : Nat
  dataStart : Nat
deriving DecidableEq, Repr

/-- Chunk tag constants (`ChunkID`). -/
def FORMid : Nat := 0x4D524F46
def SPRTid : Nat := 0x54525053
def OBJTid : Nat := 0x544A424F
def ROOMid : Nat := 0x4D4F4F52
def BGNDid : Nat := 0x444E4742
def TXTRid : Nat := 0x52545854

/-- The chunk-scanning loop of `DataWin._parse`: starting at `pos = 8`,
while `pos < size - 8` read a 4-byte tag and 4-byte size and advance
`8 + size` bytes.  Structural fuel replaces the `while`; each iteration
advances `pos` by at least 8, so `fuel = d.size` iterations always
suffice (proved in `scanAux_stops`). -/
def scanAux (d : DW) : Nat → Nat → List (Nat × Chunk)
  | 0, _ => []
  | fuel + 1, pos =>
    if pos + 8 < d.size then
      let cid := d.u32 pos
      let sz := d.u32 (pos + 4)
      (cid, ⟨cid, pos, sz, pos + 8⟩) :: scanAux d fuel (pos + 8 + sz)
    else []

/-- The full sequence of chunk headers scanned by `DataWin._parse`
(in scan order, duplicates retained). -/
def DW.chunkList (d : DW) : List (Nat × Chunk) :=
  scanAux d d.size 8

/-- Python `dict` insertion: drop any earlier binding of the key, append
the new one. -/
def dinsert {κ α : Type} [DecidableEq κ] (m : List (κ × α)) (k : κ) (v : α) :
    List (κ × α) :=
  m.filter (fun p => decide (p.1 ≠ k)) ++ [(k, v)]

/-- Fold a record list into a Python-`dict` association list. -/
def dictOf {κ α β : Type} [DecidableEq κ] (key : α → κ) (val : α → β)
    (l : List α) : List (κ × β) :=
  l.foldl (fun m s => dinsert m (key s) (val s)) []

/-- `self.chunks`: the tag-keyed chunk dictionary (duplicate tags
overwrite, last wins). -/
def DW.chunksDict (d : DW) : List (Nat × Chunk) :=
  dictOf Prod.fst Prod.snd d.chunkList

/-- The fatal error taxonomy: only a bad leading magic aborts a load
(`raise ValueError("Invalid data.win")` in `DataWin._parse`). -/
inductive FormatError where
  | badMagic
deriving DecidableEq, Repr

/-- `DataWin._parse`: check the `FORM` magic, then scan chunks.  A bad
magic is a fatal error and no chunk table escapes. -/
def parseDW (d : DW) : Except FormatError (List (Nat × Chunk)) :=
  if d.u32 0 = FORMid then .ok d.chunksDict else .error .badMagic

/-- A texture-atlas region (`TPAGEntry`): all fields are `u16`. -/
structure TPAGEntry where
  src_x : Nat
  src_y : Nat
  src_w : Nat
  src_h : Nat
  tgt_x : Nat
  tgt_y : Nat
  tgt_w : Nat
  tgt_h : Nat
  bound_w : Nat
  bound_h : Nat
  tex_id : Nat
deriving DecidableEq, Repr

/-- Read the 22-byte `TPAGEntry` record at `tp` (eleven `u16` reads). -/
def decodeTPAG (d : DW) (tp : Nat) : TPAGEntry :=
  ⟨d.u16 tp, d.u16 (tp + 2), d.u16 (tp + 4), d.u16 (tp + 6),
   d.u16 (tp + 8), d.u16 (tp + 10), d.u16 (tp + 12), d.u16 (tp + 14),
   d.u16 (tp + 16), d.u16 (tp + 18), d.u16 (tp + 20)⟩

/-- `Sprite` record (name kept as bytes, origin as signed ints). -/
structure Sprite where
  index : Nat
  name : List Nat
  width : Nat
  height : Nat
  origin_x : Int
  origin_y : Int
  frames : List TPAGEntry
deriving DecidableEq, Repr

/-- Decode one sprite record at pointer `ptr`, table slot `i`
(`GameExtractor._sprites` loop body after the pointer guard).  A frame
count of 5000 or more discards the whole frame list; individual frame
pointers that are zero or whose 22-byte record would not fit are
skipped, as are zero-area regions. -/
def decodeSpriteAt (d : DW) (ptr i : Nat) : Sprite :=
  let name_ptr := d.u32 ptr
  { index := i
    name := if name_ptr ≠ 0 then d.cStr name_ptr
            else strBytes ("sprite_" ++ toString i)
    width := d.u32 (ptr + 4)
    height := d.u32 (ptr + 8)
    origin_x := d.i32 (ptr + 0x30)
    origin_y := d.i32 (ptr + 0x34)
    frames :=
      let fc := d.u32 (ptr + 0x38)
      if fc < 5000 then
        (List.range fc).filterMap fun j =>
          let tp := d.u32 (ptr + 0x3C + j * 4)
          if tp ≠ 0 ∧ tp + 22 < d.size then
            let tpe := decodeTPAG d tp
            if 0 < tpe.src_w ∧ 0 < tpe.src_h then some tpe else none
          else none
      else [] }

/-- The pointer guard and per-slot decode of `_sprites`: slot `i` of the
pointer table at `off` yields a sprite unless the pointer is zero or
fails `ptr < size - 64`. -/
def spriteSlot (d : DW) (off i : Nat) : Option Sprite :=
  let ptr := d.u32 (off + 4 + i * 4)
  if ptr ≠ 0 ∧ ptr + 64 < d.size then some (decodeSpriteAt d ptr i) else none

/-- `GameExtractor._sprites` over a chunk whose payload starts at `off`:
read the count, then decode each table slot, skipping invalid pointers. -/
def spritesFromTable (d : DW) (off : Nat) : List Sprite :=
  (List.range (d.u32 off)).filterMap (spriteSlot d off)

/-- Modelled from the spec: the per-chunk "skipped" tally.  The source
(`_sprites`) silently `continue`s over zero/out-of-range pointers and
keeps no counter; the spec requires each such skip to be counted, so the
tally is modelled as the loop's running count of skipped table slots. -/
def spriteSkipTally (d : DW) (off : Nat) : Nat :=
  (List.range (d.u32 off)).foldl
    (fun acc i =>
      let ptr := d.u32 (off + 4 + i * 4)
      if ptr ≠ 0 ∧ ptr + 64 < d.size then acc else acc + 1) 0

/-- `GameObject` record. -/
structure GameObject where
  index : Nat
  name : List Nat
  sprite_index : Int
  visible : Bool
  solid : Bool
  depth : Int
  parent_index : Int
  mask_index : Int
deriving DecidableEq, Repr

/-- Decode one object record (`GameExtractor._objects` loop body). -/
def decodeObjectAt (d : DW) (ptr i : Nat) : GameObject :=
  let name_ptr := d.u32 ptr
  { index := i
    name := if name_ptr ≠ 0 then d.cStr name_ptr
            else strBytes ("object_" ++ toString i)
    sprite_index := d.i32 (ptr + 4)
    visible := d.u32 (ptr + 8) ≠ 0
    solid := d.u32 (ptr + 12) ≠ 0
    depth := d.i32 (ptr + 16)
    parent_index := d.i32 (ptr + 24)
    mask_index := d.i32 (ptr + 28) }

/-- The pointer guard and per-slot decode of `_objects` (`ptr < size - 32`). -/
def objectSlot (d : DW) (off i : Nat) : Option GameObject :=
  let ptr := d.u32 (off + 4 + i * 4)
  if ptr ≠ 0 ∧ ptr + 32 < d.size then some (decodeObjectAt d ptr i) else none

/-- `GameExtractor._objects` over a chunk payload at `off`. -/
def objectsFromTable (d : DW) (off : Nat) : List GameObject :=
  (List.range (d.u32 off)).filterMap (objectSlot d off)

/-- Modelled from the spec: the skipped tally for `_objects` (the source
keeps no counter; see `spriteSkipTally`). -/
def objectSkipTally (d : DW) (off : Nat) : Nat :=
  (List.range (d.u32 off)).foldl
    (fun acc i =>
      let ptr := d.u32 (off + 4 + i * 4)
      if ptr ≠ 0 ∧ ptr + 32 < d.size then acc else acc + 1) 0

/-- `self.sprite_map` / `self.object_map`: index-keyed dictionaries built
alongside the record lists (the loop executes `self.sprites.append(spr)`
and `self.sprite_map[i] = spr` together, so the dictionary is the fold of
the list's `(index, record)` pairs).  Keys are `Int` because downstream
lookups use signed fields such as `GameObject.sprite_index`. -/
def spriteMapOf (l : List Sprite) : List (Int × Sprite) :=
  dictOf (fun s => (s.index : Int)) id l

/-- `self.object_map` as an association list, see `spriteMapOf`. -/
def objectMapOf (l : List GameObject) : List (Int × GameObject) :=
  dictOf (fun o => (o.index : Int)) id l

/-- `Background` record: name plus at most one atlas region. -/
structure Background where
  index : Nat
  name : List Nat
  tpage : Option TPAGEntry
deriving DecidableEq, Repr

/-- Decode one background record (`GameExtractor._backgrounds` body). -/
def decodeBackgroundAt (d : DW) (ptr i : Nat) : Background :=
  let name_ptr := d.u32 ptr
  let tp_ptr := if ptr + 20 ≤ d.size then d.u32 (ptr + 16) else 0
  { index := i
    name := if name_ptr ≠ 0 then d.cStr name_ptr
            else strBytes ("bg_" ++ toString i)
    tpage := if tp_ptr ≠ 0 ∧ tp_ptr + 22 < d.size
             then some (decodeTPAG d tp_ptr) else none }

/-- The pointer guard of `_backgrounds` (`ptr < size - 20`). -/
def backgroundSlot (d : DW) (off i : Nat) : Option Background :=
  let ptr := d.u32 (off + 4 + i * 4)
  if ptr ≠ 0 ∧ ptr + 20 < d.size then some (decodeBackgroundAt d ptr i) else none

/-- `GameExtractor._backgrounds` over a chunk payload at `off`. -/
def backgroundsFromTable (d : DW) (off : Nat) : List Background :=
  (List.range (d.u32 off)).filterMap (backgroundSlot d off)

/-- `RoomInst` record. -/
structure RoomInst where
  x : Int
  y : Int
  obj_idx : Int
  inst_id : Nat
deriving DecidableEq, Repr

/-- `RoomBgDef` record. -/
structure RoomBgDef where
  visible : Bool
  foreground : Bool
  bg_index : Int
  x : Int
  y : Int
  tile_h : Bool
  tile_v : Bool
  stretch : Bool
deriving DecidableEq, Repr

/-- `RoomTile` record (`scale_x`/`scale_y`/`color` kept as raw 32-bit
patterns; the tile scales are IEEE-754 floats in the source). -/
structure RoomTile where
  x : Int
  y : Int
  bg_index : Int
  src_x : Int
  src_y : Int
  width : Int
  height : Int
  depth : Int
  inst_id : Nat
  scale_x : Nat
  scale_y : Nat
  color : Nat
deriving DecidableEq, Repr

/-- `Room` record. -/
structure Room where
  index : Nat
  name : List Nat
  width : Nat
  height : Nat
  speed : Nat
  color : Nat
  instances : List RoomInst
  bg_defs : List RoomBgDef
  tiles : List RoomTile
deriving DecidableEq, Repr

/-- Decode one room record (`GameExtractor._rooms` loop body): the
background-definition, instance and tile sub-lists are count-prefixed
pointer tables, iterated up to `min(count, 8)`, `min(count, 10000)` and
`min(count, 50000)` slots respectively; invalid element pointers are
skipped. -/
def decodeRoomAt (d : DW) (ptr i : Nat) : Room :=
  let name_ptr := d.u32 ptr
  { index := i
    name := if name_ptr ≠ 0 then d.cStr name_ptr
            else strBytes ("room_" ++ toString i)
    width := d.u32 (ptr + 0x08)
    height := d.u32 (ptr + 0x0C)
    speed := d.u32 (ptr + 0x10)
    color := d.u32 (ptr + 0x18)
    instances :=
      let inst_ptr := d.u32 (ptr + 0x30)
      if inst_ptr ≠ 0 ∧ inst_ptr + 4 < d.size then
        (List.range (min (d.u32 inst_ptr) 10000)).filterMap fun _j =>
          let ip := d.u32 (inst_ptr + 4 + _j * 4)
          if ip ≠ 0 ∧ ip + 16 < d.size then
            some ⟨d.i32 ip, d.i32 (ip + 4), d.i32 (ip + 8), d.u32 (ip + 12)⟩
          else none
      else []
    bg_defs :=
      let bg_list_ptr := d.u32 (ptr + 0x28)
      if bg_list_ptr ≠ 0 ∧ bg_list_ptr + 4 < d.size then
        (List.range (min (d.u32 bg_list_ptr) 8)).filterMap fun _j =>
          let bp := d.u32 (bg_list_ptr + 4 + _j * 4)
          if bp ≠ 0 ∧ bp + 32 < d.size then
            some ⟨d.u32 bp ≠ 0, d.u32 (bp + 4) ≠ 0, d.i32 (bp + 8),
                  d.i32 (bp + 0x0C), d.i32 (bp + 0x10), d.u32 (bp + 0x14) ≠ 0,
                  d.u32 (bp + 0x18) ≠ 0, d.u32 (bp + 0x24) ≠ 0⟩
          else none
      else []
    tiles :=
      let tile_ptr := d.u32 (ptr + 0x34)
      if tile_ptr ≠ 0 ∧ tile_ptr + 4 < d.size then
        (List.range (min (d.u32 tile_ptr) 50000)).filterMap fun _j =>
          let tp := d.u32 (tile_ptr + 4 + _j * 4)
          if tp ≠ 0 ∧ tp + 0x30 < d.size then
            some ⟨d.i32 tp, d.i32 (tp + 4), d.i32 (tp + 8), d.i32 (tp + 0x0C),
                  d.i32 (tp + 0x10), d.i32 (tp + 0x14), d.i32 (tp + 0x18),
                  d.i32 (tp + 0x1C), d.u32 (tp + 0x20), d.u32 (tp + 0x24),
                  d.u32 (tp + 0x28), d.u32 (tp + 0x2C)⟩
          else none
      else [] }

/-- The pointer guard of `_rooms` (`ptr < size - 100`). -/
def roomSlot (d : DW) (off i : Nat) : Option Room :=
  let ptr := d.u32 (off + 4 + i * 4)
  if ptr ≠ 0 ∧ ptr + 100 < d.size then some (decodeRoomAt d ptr i) else none

/-- `GameExtractor._rooms` over a chunk payload at `off`. -/
def roomsFromTable (d : DW) (off : Nat) : List Room :=
  (List.range (d.u32 off)).filterMap (roomSlot d off)

/-- PNG signature bytes `\x89PNG\r\n\x1a\n`. -/
def pngSig : List Nat := [137, 80, 78, 71, 13, 10, 26, 10]

/-- Bytes of the `IEND` chunk type. -/
def iendBytes : List Nat := [73, 69, 78, 68]

/-- The sub-block walk of `GameExtractor._extract_png`: while
`pos < size - 12`, read a big-endian length and 4-byte type, advance
`12 + length`, and return `data[off:pos]` as soon as the type just
passed was `IEND`.  Fuel replaces the `while`; each iteration advances
at least 12 bytes, so `fuel = d.size` always suffices. -/
def pngLoop (d : DW) (off : Nat) : Nat → Nat → List Nat
  | 0, _ => []
  | fuel + 1, pos =>
    if pos + 12 < d.size then
      let len := d.be32 pos
      let ty := d.slice (pos + 4) (pos + 8)
      let pos2 := pos + 12 + len
      if ty = iendBytes then d.slice off (min pos2 d.size)
      else pngLoop d off fuel pos2
    else []

/-- `GameExtractor._extract_png`: check the 8-byte PNG signature at
`off` (Python slice semantics clamp at the buffer end), then walk
sub-blocks to the `IEND` terminator. -/
def extractPng (d : DW) (off : Nat) : List Nat :=
  if d.slice off (min (off + 8) d.size) = pngSig then
    pngLoop d off d.size (off + 8)
  else []

/-- One entry of `GameExtractor._textures`: a valid table entry holds a
pointer to a PNG at `u32 (entry + 4)`; invalid entries and invalid data
pointers append an empty byte string rather than being skipped. -/
def textureSlot (d : DW) (off i : Nat) : List Nat :=
  let entry := d.u32 (off + 4 + i * 4)
  if entry ≠ 0 ∧ entry + 8 < d.size then
    let data_ptr := d.u32 (entry + 4)
    if data_ptr ≠ 0 ∧ data_ptr < d.size then extractPng d data_ptr else []
  else []

/-- `GameExtractor._textures` over a chunk payload at `off`: every table
slot contributes exactly one (possibly empty) byte string. -/
def texturesFromTable (d : DW) (off : Nat) : List (List Nat) :=
  (List.range (d.u32 off)).map (textureSlot d off)

/-- Look up a chunk by tag and run a per-chunk decoder, yielding `[]`
when the chunk is absent (the `if ChunkID.X not in self.dw.chunks:
return` guard of every extractor method). -/
def fromChunk {α : Type} (d : DW) (cid : Nat) (f : DW → Nat → List α) : List α :=
  match List.lookup cid d.chunksDict with
  | some c => f d c.dataStart
  | none => []

/-- `GameExtractor._sprites` (chunk lookup included). -/
def extractSprites (d : DW) : List Sprite := fromChunk d SPRTid spritesFromTable

/-- `GameExtractor._objects` (chunk lookup included). -/
def extractObjects (d : DW) : List GameObject := fromChunk d OBJTid objectsFromTable

/-- `GameExtractor._backgrounds` (chunk lookup included). -/
def extractBackgrounds (d : DW) : List Background := fromChunk d BGNDid backgroundsFromTable

/-- `GameExtractor._rooms` (chunk lookup included). -/
def extractRooms (d : DW) : List Room := fromChunk d ROOMid roomsFromTable

/-- `GameExtractor._textures` (chunk lookup included). -/
def extractTextures (d : DW) : List (List Nat) := fromChunk d TXTRid texturesFromTable

/-- The decoded catalog handed to consumers (the collections the claims
are about; the full extractor also decodes sounds, fonts, paths, scripts,
shaders, extensions and timelines). -/
structure Catalog where
  sprites : List Sprite
  objects : List GameObject
  backgrounds : List Background
  rooms : List Room
  textures : List (List Nat)
  sprite_map : List (Int × Sprite)
  object_map : List (Int × GameObject)

/-- Build the catalog from a parsed buffer. -/
def extractAll (d : DW) : Catalog :=
  let sprites := extractSprites d
  let objects := extractObjects d
  { sprites := sprites
    objects := objects
    backgrounds := extractBackgrounds d
    rooms := extractRooms d
    textures := extractTextures d
    sprite_map := spriteMapOf sprites
    object_map := objectMapOf objects }

/-- Loading an archive end to end: `DataWin.__init__` (parse) followed by
`GameExtractor.extract_all`.  A bad magic aborts before any decoding. -/
def loadCatalog (d : DW) : Except FormatError Catalog :=
  match parseDW d with
  | .ok _ => .ok (extractAll d)
  | .error e => .error e

/-- An RGBA pixel. -/
def Pix : Type := Nat × Nat × Nat × Nat
deriving instance DecidableEq for Pix

/-- The fully transparent pixel `(0, 0, 0, 0)`. -/
def clearPix : Pix := (0, 0, 0, 0)

/-- A raster image: dimensions plus a pixel function (the semantic
domain is `[0, width) × [0, height)`). -/
structure Image where
  width : Nat
  height : Nat
  pix : Nat → Nat → Pix

/-- PIL `Image.crop((l, t, r, b))`: an `(r - l) × (b - t)` image whose
pixel `(x, y)` is the source pixel `(l + x, t + y)`. -/
def Image.crop (img : Image) (l t r b : Nat) : Image :=
  ⟨r - l, b - t, fun x y => img.pix (l + x) (t + y)⟩

/-- PIL `paste` of `src` at `(tx, ty)` onto a fresh fully transparent
`w × h` canvas (no mask: pixels, including alpha, are copied verbatim;
outside the pasted block the canvas stays transparent). -/
def pasteOnClear (src : Image) (w h tx ty : Nat) : Image :=
  ⟨w, h, fun x y =>
    if tx ≤ x ∧ x < tx + src.width ∧ ty ≤ y ∧ y < ty + src.height then
      src.pix (x - tx) (y - ty)
    else clearPix⟩

/-- One iteration of the `_build_tileset_cache` loop: a background with
an atlas region whose page is present and whose crop rectangle lies
within the page bounds caches the cropped tileset image under the
background's index; any other background caches nothing (`src_x`/`src_y`
are `u16` and hence never negative, so only the right/bottom bounds are
checked, as in the source). -/
def tilesetStep (textures : List (Nat × Image)) (m : List (Nat × Image))
    (bg : Background) : List (Nat × Image) :=
  match bg.tpage with
  | none => m
  | some tpe =>
    match List.lookup tpe.tex_id textures with
    | none => m
    | some tex =>
      if tpe.src_x + tpe.src_w ≤ tex.width ∧ tpe.src_y + tpe.src_h ≤ tex.height then
        dinsert m bg.index
          (tex.crop tpe.src_x tpe.src_y (tpe.src_x + tpe.src_w) (tpe.src_y + tpe.src_h))
      else m

/-- `RoomRenderer._build_tileset_cache`: the loop over all decoded
backgrounds. -/
def buildTilesetCache (bgs : List Background) (textures : List (Nat × Image)) :
    List (Nat × Image) :=
  bgs.foldl (tilesetStep textures) []

/-- `RoomRenderer.get_tileset`. -/
def getTileset (cache : List (Nat × Image)) (bg_index : Nat) : Option Image :=
  List.lookup bg_index cache

/-- `RoomRenderer._get_sprite_frame`: crop the frame's region out of its
atlas page (absent when the page is missing, the region is degenerate,
or it overruns the page) and paste it at the region's target offset onto
a transparent canvas of the sprite's declared size; a sprite with a
non-positive declared size gets the bare crop. -/
def getSpriteFrame (textures : List (Nat × Image)) (tpe : TPAGEntry)
    (sprite_w sprite_h : Nat) : Option Image :=
  match List.lookup tpe.tex_id textures with
  | none => none
  | some tex =>
    if tpe.src_w = 0 ∨ tpe.src_h = 0 ∨ tex.width < tpe.src_x + tpe.src_w ∨
        tex.height < tpe.src_y + tpe.src_h then none
    else
      let c := tex.crop tpe.src_x tpe.src_y (tpe.src_x + tpe.src_w) (tpe.src_y + tpe.src_h)
      if 0 < sprite_w ∧ 0 < sprite_h then
        some (pasteOnClear c sprite_w sprite_h tpe.tgt_x tpe.tgt_y)
      else some c

/-- The payload of one draw-list element of `RoomRenderer.render_room`:
a `('tile', depth, tile, i)` or an `('inst', depth, (obj, inst),
100000 + i)` tuple. -/
inductive DrawPayload where
  | tile (t : RoomTile)
  | inst (o : GameObject) (ri : RoomInst)
deriving DecidableEq, Repr

/-- One draw-list element: sort depth, payload, and the tie-break index
(`x[3]` in the source: the tile's enumeration index, or `100000 + i` for
instances). -/
structure DrawItem where
  depth : Int
  payload : DrawPayload
  idx : Nat
deriving DecidableEq, Repr

/-- Whether a draw-list element is an instance entry. -/
def DrawItem.isInst (a : DrawItem) : Bool :=
  match a.payload with
  | .inst _ _ => true
  | .tile _ => false

/-- The declaration index of a draw-list element: its position in the
room's tile list, respectively instance list (the source's `i` before
the `100000 +` offset for instances). -/
def DrawItem.declIdx (a : DrawItem) : Nat :=
  match a.payload with
  | .tile _ => a.idx
  | .inst _ _ => a.idx - 100000

/-- One enumerated tile's draw-list entry (`render_room` step 4, tile
side): included when its depth lies in the filter range, carrying its
enumeration index as the tie-break index. -/
def tileEntry (depth_min depth_max : Int) (p : Nat × RoomTile) : Option DrawItem :=
  if depth_min ≤ p.2.depth ∧ p.2.depth ≤ depth_max then
    some ⟨p.2.depth, .tile p.2, p.1⟩
  else none

/-- One enumerated instance's draw-list entry (`render_room` step 4,
instance side): resolved through `object_map`, gated by the object's
`visible` flag (unless overridden) and by the object's depth against the
filter range, carrying `100000 + i` as the tie-break index. -/
def instEntry (objMap : List (Int × GameObject)) (show_hidden : Bool)
    (depth_min depth_max : Int) (p : Nat × RoomInst) : Option DrawItem :=
  match List.lookup p.2.obj_idx objMap with
  | none => none
  | some o =>
    if (o.visible ∨ show_hidden) ∧ depth_min ≤ o.depth ∧ o.depth ≤ depth_max then
      some ⟨o.depth, .inst o p.2, 100000 + p.1⟩
    else none

/-- The draw-list construction of `render_room` step 4: enumerate the
room's tiles, then its instances. -/
def buildDrawList (objMap : List (Int × GameObject)) (room : Room)
    (show_tiles show_inst show_hidden : Bool) (depth_min depth_max : Int) :
    List DrawItem :=
  (if show_tiles then room.tiles.enum.filterMap (tileEntry depth_min depth_max)
   else []) ++
  (if show_inst then
    room.instances.enum.filterMap (instEntry objMap show_hidden depth_min depth_max)
   else [])

/-- The sort key order of `draw_list.sort(key=lambda x: (-x[1], x[3]))`:
lexicographic on `(-depth, idx)`, i.e. higher depth first, then lower
tie-break index first. -/
def drawLe (a b : DrawItem) : Prop :=
  b.depth < a.depth ∨ (a.depth = b.depth ∧ a.idx ≤ b.idx)

instance : DecidableRel drawLe := fun a b => by
  unfold drawLe; infer_instance

instance : IsTotal DrawItem drawLe := by
  constructor
  intro a b
  unfold drawLe
  rcases lt_trichotomy a.depth b.depth with h | h | h
  · exact Or.inr (Or.inl h)
  · rcases Nat.le_total a.idx b.idx with h2 | h2
    · exact Or.inl (Or.inr ⟨h, h2⟩)
    · exact Or.inr (Or.inr ⟨h.symm, h2⟩)
  · exact Or.inl (Or.inl h)

instance : IsTrans DrawItem drawLe := by
  constructor
  intro a b c hab hbc
  unfold drawLe at *
  rcases hab with h1 | ⟨h1, h1i⟩ <;> rcases hbc with h2 | ⟨h2, h2i⟩
  · exact Or.inl (h2.trans h1)
  · exact Or.inl (h2 ▸ h1)
  · exact Or.inl (h1 ▸ h2)
  · exact Or.inr ⟨h1.trans h2, h1i.trans h2i⟩

/-- The sorted draw list of `render_room` step 5: Python's `list.sort`
is stable, and so is `List.insertionSort`, so the two agree elementwise
(and the tie-break indices are pairwise distinct anyway, which already
pins the order uniquely). -/
def sortedDrawList (objMap : List (Int × GameObject)) (room : Room)
    (show_tiles show_inst show_hidden : Bool) (depth_min depth_max : Int) :
    List DrawItem :=
  List.insertionSort drawLe
    (buildDrawList objMap room show_tiles show_inst show_hidden depth_min depth_max)

/-! ### Helper lemmas: dictionaries -/

theorem lookup_dinsert {κ α : Type} [DecidableEq κ] (m : List (κ × α)) (k k' : κ) (v : α) :
    (dinsert m k' v).lookup k = if k = k' then some v else m.lookup k := by
  induction m with
  | nil =>
    by_cases h : k = k'
    · simp [dinsert, List.lookup_cons, h]
    · simp [dinsert, List.lookup_cons, h, beq_false_of_ne h]
  | cons a m ih =>
    rcases a with ⟨ak, av⟩
    by_cases ha : ak = k'
    · have he : dinsert ((ak, av) :: m) k' v = dinsert m k' v := by
        simp [dinsert, ha]
      rw [he, ih]
      by_cases h : k = k'
      · simp [h]
      · have hka : ¬ k = ak := fun hh => h (hh.trans ha)
        simp [h, List.lookup_cons, beq_false_of_ne hka]
    · have he : dinsert ((ak, av) :: m) k' v = (ak, av) :: dinsert m k' v := by
        simp [dinsert, ha]
      rw [he]
      by_cases hk : k = ak
      · subst hk
        have h' : ¬ k = k' := ha
        simp [List.lookup_cons, h']
      · simp [List.lookup_cons, beq_false_of_ne hk, ih]

theorem lookup_foldl_dinsert {κ α β : Type} [DecidableEq κ] (key : α → κ) (val : α → β) :
    ∀ (l : List α) (m0 : List (κ × β)) (k : κ),
    ((l.foldl (fun m s => dinsert m (key s) (val s)) m0).lookup k) =
      match l.reverse.find? (fun s => decide (key s = k)) with
      | some s => some (val s)
      | none => m0.lookup k := by
  intro l
  induction l with
  | nil => intro m0 k; simp
  | cons a rest ih =>
    intro m0 k
    rw [List.foldl_cons, ih, List.reverse_cons, List.find?_append]
    cases hr : rest.reverse.find? (fun s => decide (key s = k)) with
    | some s => simp [Option.or]
    | none =>
      simp only [Option.or, lookup_dinsert]
      by_cases h : key a = k
      · simp [h]
      · have : ¬ k = key a := fun he => h he.symm
        simp [h, this]

/-- Lookup in a Python-style dictionary built from a record list: the
value comes from the most recently inserted record whose key matches. -/
theorem lookup_dictOf {κ α β : Type} [DecidableEq κ] (key : α → κ) (val : α → β)
    (l : List α) (k : κ) :
    (dictOf key val l).lookup k =
      (l.reverse.find? (fun s => decide (key s = k))).map val := by
  rw [dictOf, lookup_foldl_dinsert]
  cases hr : l.reverse.find? (fun s => decide (key s = k)) <;> simp

/-- In a list with pairwise-distinct keys, the key-directed search finds
exactly the member carrying that key. -/
theorem find?_key_of_mem {κ α : Type} [DecidableEq κ] (key : α → κ) :
    ∀ (l : List α), (l.map key).Nodup → ∀ s ∈ l,
      l.find? (fun t => decide (key t = key s)) = some s := by
  intro l
  induction l with
  | nil => intro _ s hs; exact absurd hs (List.not_mem_nil s)
  | cons a rest ih =>
    intro hnd s hs
    have hnd' : (rest.map key).Nodup := (List.nodup_cons.mp hnd).2
    have hka : key a ∉ rest.map key := (List.nodup_cons.mp hnd).1
    rcases List.mem_cons.mp hs with rfl | hmem
    · simp
    · have hne : key a ≠ key s := by
        intro he
        exact hka (he ▸ List.mem_map_of_mem key hmem)
      rw [List.find?_cons_of_neg _ (by simpa using hne), ih hnd' s hmem]

/-! ### Helper lemmas: pairwise and enumeration -/

theorem pairwise_filterMap_of {α β : Type} {R : α → α → Prop} {S : β → β → Prop}
    (f : α → Option β)
    (h : ∀ a b x y, R a b → f a = some x → f b = some y → S x y) :
    ∀ {l : List α}, l.Pairwise R → (l.filterMap f).Pairwise S := by
  intro l hl
  induction hl with
  | nil => simp
  | cons ha _hl ih =>
    rename_i a l'
    rw [List.filterMap_cons]
    cases hfa : f a with
    | none => exact ih
    | some x =>
      refine List.Pairwise.cons ?_ ih
      intro y hy
      rcases List.mem_filterMap.mp hy with ⟨b, hb, hfb⟩
      exact h a b x y (ha b hb) hfa hfb

theorem pairwise_fst_lt_enumFrom {α : Type} :
    ∀ (l : List α) (n : Nat), (l.enumFrom n).Pairwise (fun p q => p.1 < q.1) := by
  intro l
  induction l with
  | nil => intro n; simp
  | cons a rest ih =>
    intro n
    rw [List.enumFrom_cons]
    refine List.Pairwise.cons ?_ (ih (n + 1))
    intro q hq
    exact Nat.lt_of_lt_of_le (Nat.lt_succ_self n) (List.le_fst_of_mem_enumFrom hq)

/-! ### Helper lemmas: the chunk scan -/

/-- Loop invariants of the chunk scan: every scanned chunk records its
tag, has `dataStart = offset + 8`, starts at or after the scan position,
and satisfies the loop guard; consecutive chunks are contiguous; the
first chunk sits exactly at the scan position. -/
theorem scanAux_inv (d : DW) : ∀ (fuel pos : Nat),
    (∀ p ∈ scanAux d fuel pos,
        p.2.cid = p.1 ∧ p.2.dataStart = p.2.offset + 8 ∧ pos ≤ p.2.offset ∧
        p.2.offset + 8 < d.size) ∧
    (scanAux d fuel pos).Chain'
      (fun a b => b.2.offset = a.2.offset + 8 + a.2.size) ∧
    (∀ p, (scanAux d fuel pos).head? = some p → p.2.offset = pos) := by
  intro fuel
  induction fuel with
  | zero => intro pos; refine ⟨by simp [scanAux], by simp [scanAux], by simp [scanAux]⟩
  | succ fuel ih =>
    intro pos
    by_cases h : pos + 8 < d.size
    · have he : scanAux d (fuel + 1) pos =
          (d.u32 pos, ⟨d.u32 pos, pos, d.u32 (pos + 4), pos + 8⟩) ::
            scanAux d fuel (pos + 8 + d.u32 (pos + 4)) := by
        simp [scanAux, h]
      rw [he]
      refine ⟨?_, ?_, ?_⟩
      · intro p hp
        rcases List.mem_cons.mp hp with rfl | hp
        · exact ⟨rfl, rfl, Nat.le_refl _, h⟩
        · have hm := (ih (pos + 8 + d.u32 (pos + 4))).1 p hp
          exact ⟨hm.1, hm.2.1, Nat.le_trans (by omega) hm.2.2.1, hm.2.2.2⟩
      · rw [List.chain'_cons']
        refine ⟨?_, (ih (pos + 8 + d.u32 (pos + 4))).2.1⟩
        intro q hq
        have := (ih (pos + 8 + d.u32 (pos + 4))).2.2 q hq
        simpa using this
      · intro p hp
        simp only [List.head?_cons, Option.some.injEq] at hp
        rw [← hp]
    · have he : scanAux d (fuel + 1) pos = [] := by simp [scanAux, h]
      rw [he]
      refine ⟨by simp, by simp, by simp⟩

/-- When the fuel covers the remaining buffer (`size ≤ pos + 8·fuel`, and
`fuel = size` always does for `pos ≥ 8`), the scan stops only because the
guard `pos + 8 < size` failed: an empty result means at most 8 bytes past
`pos` remain, and the last scanned chunk extends to within 8 bytes of the
buffer end. -/
theorem scanAux_stops (d : DW) : ∀ (fuel pos : Nat), d.size ≤ pos + 8 * fuel →
    (scanAux d fuel pos = [] → d.size ≤ pos + 8) ∧
    (∀ p, (scanAux d fuel pos).getLast? = some p →
      d.size ≤ p.2.offset + 8 + p.2.size + 8) := by
  intro fuel
  induction fuel with
  | zero =>
    intro pos hf
    exact ⟨fun _ => by omega, fun p hp => by simp [scanAux] at hp⟩
  | succ fuel ih =>
    intro pos hf
    by_cases h : pos + 8 < d.size
    · have he : scanAux d (fuel + 1) pos =
          (d.u32 pos, ⟨d.u32 pos, pos, d.u32 (pos + 4), pos + 8⟩) ::
            scanAux d fuel (pos + 8 + d.u32 (pos + 4)) := by
        simp [scanAux, h]
      have hf' : d.size ≤ pos + 8 + d.u32 (pos + 4) + 8 * fuel := by omega
      refine ⟨fun hc => ?_, fun p hp => ?_⟩
      · rw [he] at hc; exact absurd hc (List.cons_ne_nil _ _)
      · rw [he] at hp
        cases hr : scanAux d fuel (pos + 8 + d.u32 (pos + 4)) with
        | nil =>
          rw [hr, List.getLast?_singleton] at hp
          have := (ih _ hf').1 hr
          cases hp
          simpa using this
        | cons y ys =>
          rw [hr, List.getLast?_cons_cons] at hp
          exact (ih _ hf').2 p (by rw [hr]; exact hp)
    · have he : scanAux d (fuel + 1) pos = [] := by simp [scanAux, h]
      exact ⟨fun _ => by omega, fun p hp => by rw [he] at hp; simp at hp⟩

/-! ### Helper lemmas: strings -/

/-- The null-terminated fallback read is bounded by its 200-byte scan
window. -/
theorem cStr_length_le (d : DW) (o : Nat) : (d.cStr o).length ≤ 200 := by
  unfold DW.cStr
  split
  · simp
  · cases hf : (List.range (min (o + 200) d.size - o)).find? (fun k => d.byte (o + k) == 0) with
    | none => simp
    | some k =>
      have hk : k ∈ List.range (min (o + 200) d.size - o) :=
        List.mem_of_find?_eq_some hf
      have hk' : k < min (o + 200) d.size - o := List.mem_range.mp hk
      have hmin : min (o + 200) d.size ≤ o + 200 := Nat.min_le_left _ _
      simp only
      split
      · simp only [DW.slice, List.length_map, List.length_range]
        omega
      · simp

/-- A synthesized name (ASCII bytes of a string with a nonempty literal
stem) is nonempty. -/
theorem strBytes_append_ne_nil (s t : String) (h : s.data ≠ []) :
    strBytes (s ++ t) ≠ [] := by
  intro hc
  have hd : (s ++ t).data = [] := List.map_eq_nil_iff.mp hc
  rw [String.data_append] at hd
  exact h (List.append_eq_nil.mp hd).1

/-! ### Helper lemmas: PNG sub-block walk -/

/-- Modelled from the spec, §4.3 (used as the specification side of the
amended claim C9): the walk of a PNG's internal sub-block chain, from a
block start to the end of the image's own `IEND` end-marker block,
skipping `12 + declared-length` bytes per sub-block.  Every visited block
header is required to start more than 12 bytes before the buffer end —
the boundary condition the source's loop guard imposes. -/
inductive PngChain (d : DW) : Nat → Nat → Prop where
  | found (pos : Nat) (hin : pos + 12 < d.size)
      (hty : d.slice (pos + 4) (pos + 8) = iendBytes) :
      PngChain d pos (pos + 12 + d.be32 pos)
  | step (pos e : Nat) (hin : pos + 12 < d.size)
      (hty : d.slice (pos + 4) (pos + 8) ≠ iendBytes)
      (rest : PngChain d (pos + 12 + d.be32 pos) e) : PngChain d pos e

/-- Modelled from the spec, §4.3 (the claim C9 exactly as stated): the
same sub-block walk, requiring only that each visited block lie within
the buffer (`pos + 12 ≤ size`), with no strict-interior condition. -/
inductive PngChainSpec (d : DW) : Nat → Nat → Prop where
  | found (pos : Nat) (hin : pos + 12 ≤ d.size)
      (hty : d.slice (pos + 4) (pos + 8) = iendBytes) :
      PngChainSpec d pos (pos + 12 + d.be32 pos)
  | step (pos e : Nat) (hin : pos + 12 ≤ d.size)
      (hty : d.slice (pos + 4) (pos + 8) ≠ iendBytes)
      (rest : PngChainSpec d (pos + 12 + d.be32 pos) e) : PngChainSpec d pos e

/-- The source's sub-block loop follows a `PngChain` exactly: with
enough fuel it returns the byte range from `off` to the chain's end. -/
theorem pngLoop_of_chain (d : DW) (off : Nat) :
    ∀ {pos e : Nat}, PngChain d pos e → ∀ fuel, d.size ≤ pos + 12 * fuel →
      pngLoop d off fuel pos = d.slice off (min e d.size) := by
  intro pos e hchain
  induction hchain with
  | found p hin hty =>
    intro fuel hf
    cases fuel with
    | zero => omega
    | succ fuel => simp [pngLoop, hin, hty]
  | step p e hin hty _rest ih =>
    intro fuel hf
    cases fuel with
    | zero => omega
    | succ fuel =>
      have : d.size ≤ p + 12 + d.be32 p + 12 * fuel := by omega
      simp only [pngLoop, if_pos hin, if_neg hty]
      exact ih fuel this

/-! ### Claim C3: bad magic aborts the load -/

/-- C3: a buffer whose leading 4 bytes are not the `FORM` container tag
fails to parse with the fatal bad-magic error, and the end-to-end load
produces no catalog of decoded records, not even a partial one (the
`Except` carries no value alongside the error). -/
theorem C3_bad_magic (d : DW) (h4 : 4 ≤ d.size) (hm : d.u32 0 ≠ FORMid) :
    parseDW d = .error .badMagic ∧ loadCatalog d = .error .badMagic := by
  have hp : parseDW d = .error .badMagic := by
    unfold parseDW
    simp [hm]
  exact ⟨hp, by unfold loadCatalog; rw [hp]⟩

/-- Witness for C3 at a concrete 4-byte buffer of zeros. -/
theorem C3_bad_magic_witness :
    4 ≤ (mkDW [0, 0, 0, 0]).size ∧
    (mkDW [0, 0, 0, 0]).u32 0 ≠ FORMid ∧
    loadCatalog (mkDW [0, 0, 0, 0]) = .error .badMagic :=
  ⟨by decide, by decide, (C3_bad_magic (mkDW [0, 0, 0, 0]) (by decide) (by decide)).2⟩

/-! ### Claim C6: the chunk scan -/

/-- Modelled from the spec (claim C6 exactly as stated, for the
refutation): a scan that reads a tag and a size and advances `8 + size`
bytes, "repeating until fewer than 8 bytes remain" — i.e. it keeps going
while at least 8 bytes remain (`pos + 8 ≤ size`).  The source's loop
instead requires strictly more than 8 remaining bytes. -/
def specScanAux (d : DW) : Nat → Nat → List (Nat × Chunk)
  | 0, _ => []
  | fuel + 1, pos =>
    if pos + 8 ≤ d.size then
      (d.u32 pos, ⟨d.u32 pos, pos, d.u32 (pos + 4), pos + 8⟩) ::
        specScanAux d fuel (pos + 8 + d.u32 (pos + 4))
    else []

/-- Modelled from the spec: the claim-side scan started like the source's
(after the 8-byte magic/size header). -/
def specChunkScan (d : DW) : List (Nat × Chunk) :=
  specScanAux d (d.size + 1) 8

/-- A 16-byte buffer: `FORM` header, then one chunk header (tag
`"ABCD"`, size 0) occupying exactly the final 8 bytes. -/
def c6buf : DW :=
  mkDW [70, 79, 82, 77, 8, 0, 0, 0, 65, 66, 67, 68, 0, 0, 0, 0]

/-- Counterexample to C6 as stated: this buffer passes the magic check
and, with exactly 8 bytes remaining after the header ("not fewer than
8"), the claim's scan reads one final chunk — but the source's loop
(`while pos < self.size - 8`) stops and produces no chunk at all. -/
theorem C6_counterexample :
    c6buf.u32 0 = FORMid ∧
    (specChunkScan c6buf).length = 1 ∧
    c6buf.chunkList = [] ∧
    c6buf.chunkList ≠ specChunkScan c6buf := by decide

/-- C6 (amended): the scan advances `8 + size` bytes per chunk but
repeats only while *more than* 8 bytes remain (a final chunk header in
the last 8 bytes is not scanned); the scanned chunks carry their tag,
have `payload_start = offset + 8`, strictly increasing offsets, and are
contiguous (hence non-overlapping); a later chunk with an already-seen
tag overwrites the earlier dictionary entry (the lookup returns the
latest scanned chunk with that tag); the scan genuinely stops at the
loop guard: an empty result means at most 16 bytes of buffer, and the
last chunk always extends to within 8 bytes of the end. -/
theorem C6_chunk_scan (d : DW) :
    (∀ p ∈ d.chunkList, p.2.cid = p.1 ∧ p.2.dataStart = p.2.offset + 8) ∧
    ((d.chunkList.map fun p => p.2.offset).Pairwise (· < ·)) ∧
    d.chunkList.Chain' (fun a b => b.2.offset = a.2.offset + 8 + a.2.size) ∧
    (∀ k, d.chunksDict.lookup k =
      (d.chunkList.reverse.find? (fun p => decide (p.1 = k))).map Prod.snd) ∧
    (d.chunkList = [] → d.size ≤ 16) ∧
    (∀ p, d.chunkList.getLast? = some p → d.size ≤ p.2.offset + 8 + p.2.size + 8) := by
  have hinv := scanAux_inv d d.size 8
  have hstop := scanAux_stops d d.size 8 (by omega)
  refine ⟨fun p hp => ⟨(hinv.1 p hp).1, (hinv.1 p hp).2.1⟩, ?_, hinv.2.1, ?_, ?_, hstop.2⟩
  · have hc : (d.chunkList.map fun p => p.2.offset).Chain' (· < ·) := by
      rw [List.chain'_map]
      exact hinv.2.1.imp fun h => by omega
    exact List.chain'_iff_pairwise.mp hc
  · intro k
    exact lookup_dictOf Prod.fst Prod.snd d.chunkList k
  · intro he
    have := hstop.1 he
    omega

/-- A 33-byte buffer: `FORM` header, a chunk tagged `"AAAA"` of size 8
at offset 8, a second chunk with the same tag and size 0 at offset 24,
and one trailing byte. -/
def c6wbuf : DW :=
  mkDW [70, 79, 82, 77, 0, 0, 0, 0,
        65, 65, 65, 65, 8, 0, 0, 0, 1, 2, 3, 4, 5, 6, 7, 8,
        65, 65, 65, 65, 0, 0, 0, 0,
        9]

/-- Witness for C6 (amended) at a concrete two-chunk buffer with a
duplicate tag: the first scanned chunk has `payload_start = offset + 8`,
the dictionary lookup of the duplicated tag returns the later chunk
(offset 24), and the last chunk extends to within 8 bytes of the end. -/
theorem C6_chunk_scan_witness :
    ((⟨0x41414141, 8, 8, 16⟩ : Chunk).dataStart = 8 + 8) ∧
    c6wbuf.chunksDict.lookup 0x41414141 = some ⟨0x41414141, 24, 0, 32⟩ ∧
    c6wbuf.size ≤ 24 + 8 + 0 + 8 := by
  have h := C6_chunk_scan c6wbuf
  refine ⟨?_, ?_, ?_⟩
  · have hm : ((0x41414141 : Nat), (⟨0x41414141, 8, 8, 16⟩ : Chunk)) ∈ c6wbuf.chunkList := by
      decide
    exact (h.1 _ hm).2
  · rw [h.2.2.2.1 0x41414141]
    decide
  · exact h.2.2.2.2.2 (0x41414141, ⟨0x41414141, 24, 0, 32⟩) (by decide)

/-! ### Claim C2: per-pointer skipping and the skip tally -/

/-- A skip-counting fold (one `+1` per rejected element) counts exactly
the elements failing the keep-condition. -/
theorem foldl_skip_tally {α : Type} (keep : α → Prop) [DecidablePred keep] :
    ∀ (l : List α) (acc : Nat),
      l.foldl (fun a x => if keep x then a else a + 1) acc =
        acc + l.countP (fun x => decide (¬ keep x)) := by
  intro l
  induction l with
  | nil => intro acc; simp
  | cons x xs ih =>
    intro acc
    by_cases h : keep x <;> simp [h, ih, List.countP_cons] <;> omega

/-- Splitting a list's length by a decidable condition. -/
theorem countP_pos_add_countP_neg {α : Type} (P : α → Prop) [DecidablePred P] (l : List α) :
    l.countP (fun x => decide (P x)) + l.countP (fun x => decide (¬ P x)) = l.length := by
  induction l with
  | nil => simp
  | cons x xs ih =>
    simp only [List.countP_cons, List.length_cons, decide_not] at ih ⊢
    by_cases h : P x <;> simp [h] <;> omega

/-- A guarded slot decoder (`some` exactly on the keep-condition)
produces one record per kept slot. -/
theorem length_filterMap_guard {α β : Type} (keep : α → Prop) [DecidablePred keep]
    (g : α → β) (l : List α) :
    (l.filterMap fun x => if keep x then some (g x) else none).length =
      l.countP (fun x => decide (keep x)) := by
  rw [List.length_filterMap_eq_countP]
  refine List.countP_congr ?_
  intro x _
  by_cases h : keep x <;> simp [h]

/-- C2 (amended): for the sprite and object decoders, every pointer-table
slot whose pointer is zero or out of range is skipped without aborting
the batch (one record per kept slot, so records + skips = declared
count), and the modelled skip tally counts exactly those slots.  The
raw-texture decoder does *not* skip: every table slot — a zero pointer
included — appends a (possibly empty) record, so its record count always
equals the declared count. -/
theorem C2_skip_tally (d : DW) (off : Nat)
    (h : off + 4 + 4 * d.u32 off ≤ d.size) :
    (spritesFromTable d off).length + spriteSkipTally d off = d.u32 off ∧
    spriteSkipTally d off = (List.range (d.u32 off)).countP
      (fun i => decide (¬ (d.u32 (off + 4 + i * 4) ≠ 0 ∧ d.u32 (off + 4 + i * 4) + 64 < d.size))) ∧
    (objectsFromTable d off).length + objectSkipTally d off = d.u32 off ∧
    objectSkipTally d off = (List.range (d.u32 off)).countP
      (fun i => decide (¬ (d.u32 (off + 4 + i * 4) ≠ 0 ∧ d.u32 (off + 4 + i * 4) + 32 < d.size))) ∧
    (texturesFromTable d off).length = d.u32 off := by
  have hs : spriteSkipTally d off = (List.range (d.u32 off)).countP
      (fun i => decide (¬ (d.u32 (off + 4 + i * 4) ≠ 0 ∧ d.u32 (off + 4 + i * 4) + 64 < d.size))) := by
    rw [spriteSkipTally,
      foldl_skip_tally (fun i => d.u32 (off + 4 + i * 4) ≠ 0 ∧ d.u32 (off + 4 + i * 4) + 64 < d.size)]
    exact Nat.zero_add _
  have ho : objectSkipTally d off = (List.range (d.u32 off)).countP
      (fun i => decide (¬ (d.u32 (off + 4 + i * 4) ≠ 0 ∧ d.u32 (off + 4 + i * 4) + 32 < d.size))) := by
    rw [objectSkipTally,
      foldl_skip_tally (fun i => d.u32 (off + 4 + i * 4) ≠ 0 ∧ d.u32 (off + 4 + i * 4) + 32 < d.size)]
    exact Nat.zero_add _
  refine ⟨?_, hs, ?_, ho, ?_⟩
  · rw [hs, spritesFromTable]
    have hl := length_filterMap_guard
      (fun i => d.u32 (off + 4 + i * 4) ≠ 0 ∧ d.u32 (off + 4 + i * 4) + 64 < d.size)
      (fun i => decodeSpriteAt d (d.u32 (off + 4 + i * 4)) i) (List.range (d.u32 off))
    rw [show (spriteSlot d off) = fun i =>
        if d.u32 (off + 4 + i * 4) ≠ 0 ∧ d.u32 (off + 4 + i * 4) + 64 < d.size
        then some (decodeSpriteAt d (d.u32 (off + 4 + i * 4)) i) else none from rfl, hl]
    have hcnt := countP_pos_add_countP_neg
      (fun i => d.u32 (off + 4 + i * 4) ≠ 0 ∧ d.u32 (off + 4 + i * 4) + 64 < d.size)
      (List.range (d.u32 off))
    rw [List.length_range] at hcnt
    exact hcnt
  · rw [ho, objectsFromTable]
    have hl := length_filterMap_guard
      (fun i => d.u32 (off + 4 + i * 4) ≠ 0 ∧ d.u32 (off + 4 + i * 4) + 32 < d.size)
      (fun i => decodeObjectAt d (d.u32 (off + 4 + i * 4)) i) (List.range (d.u32 off))
    rw [show (objectSlot d off) = fun i =>
        if d.u32 (off + 4 + i * 4) ≠ 0 ∧ d.u32 (off + 4 + i * 4) + 32 < d.size
        then some (decodeObjectAt d (d.u32 (off + 4 + i * 4)) i) else none from rfl, hl]
    have hcnt := countP_pos_add_countP_neg
      (fun i => d.u32 (off + 4 + i * 4) ≠ 0 ∧ d.u32 (off + 4 + i * 4) + 32 < d.size)
      (List.range (d.u32 off))
    rw [List.length_range] at hcnt
    exact hcnt
  · rw [texturesFromTable, List.length_map, List.length_range]

/-- A 200-byte buffer whose payload starts at offset 0: declared count 3,
pointers 100, 0 and 120 (records of zeros at 100 and 120, both passing
the sprite guard `ptr + 64 < 200` and the object guard `ptr + 32 < 200`). -/
def c2wbuf : DW :=
  mkDW ([3, 0, 0, 0, 100, 0, 0, 0, 0, 0, 0, 0, 120, 0, 0, 0] ++
    List.replicate 184 0)

/-- Witness for C2 (amended): on the concrete table, the kept-slot
identity holds and evaluates to 2 decoded sprites with a skip tally of 1,
while the texture decoder keeps all 3 slots. -/
theorem C2_skip_tally_witness :
    0 + 4 + 4 * c2wbuf.u32 0 ≤ c2wbuf.size ∧
    (spritesFromTable c2wbuf 0).length + spriteSkipTally c2wbuf 0 = c2wbuf.u32 0 ∧
    (spritesFromTable c2wbuf 0).length = 2 ∧
    spriteSkipTally c2wbuf 0 = 1 ∧
    (objectsFromTable c2wbuf 0).length = 2 ∧
    objectSkipTally c2wbuf 0 = 1 ∧
    (texturesFromTable c2wbuf 0).length = c2wbuf.u32 0 :=
  ⟨by decide, (C2_skip_tally c2wbuf 0 (by decide)).1, by decide, by decide, by decide,
   by decide, (C2_skip_tally c2wbuf 0 (by decide)).2.2.2.2⟩

/-- A 60-byte buffer: `FORM` header, a `TXTR` chunk declaring 3 texture
entries of which the second is a zero pointer. -/
def c2cbuf : DW :=
  mkDW ([70, 79, 82, 77, 0, 0, 0, 0,
         84, 88, 84, 82, 44, 0, 0, 0,
         3, 0, 0, 0, 40, 0, 0, 0, 0, 0, 0, 0, 40, 0, 0, 0] ++
    List.replicate 28 0)

/-- Counterexample to C2 as stated: the raw-texture decoder is a
chunk-kind decoder, yet a `TXTR` chunk with declared count 3 and one
zero pointer yields 3 records, not 2 — the zero pointer contributes an
empty placeholder record instead of being skipped. -/
theorem C2_counterexample :
    c2cbuf.u32 0 = FORMid ∧
    (List.lookup TXTRid c2cbuf.chunksDict).map Chunk.dataStart = some 16 ∧
    c2cbuf.u32 16 = 3 ∧
    c2cbuf.u32 (16 + 4 + 1 * 4) = 0 ∧
    (extractTextures c2cbuf).length = 3 := by decide

/-! ### Claim C10: catalog lookup maps are consistent -/

/-- `spriteSlot` fixes the record's index to its table slot. -/
theorem spriteSlot_index (d : DW) (off i : Nat) (s : Sprite)
    (h : spriteSlot d off i = some s) : s.index = i := by
  simp only [spriteSlot] at h
  split at h
  · cases h; rfl
  · cases h

/-- `objectSlot` fixes the record's index to its table slot. -/
theorem objectSlot_index (d : DW) (off i : Nat) (o : GameObject)
    (h : objectSlot d off i = some o) : o.index = i := by
  simp only [objectSlot] at h
  split at h
  · cases h; rfl
  · cases h

/-- Decoded sprites appear in strictly increasing index order. -/
theorem sprites_index_pairwise (d : DW) (off : Nat) :
    (spritesFromTable d off).Pairwise (fun s t => s.index < t.index) := by
  refine pairwise_filterMap_of (spriteSlot d off) ?_ (List.pairwise_lt_range _)
  intro a b x y hab ha hb
  rw [spriteSlot_index d off a x ha, spriteSlot_index d off b y hb]
  exact hab

/-- Decoded objects appear in strictly increasing index order. -/
theorem objects_index_pairwise (d : DW) (off : Nat) :
    (objectsFromTable d off).Pairwise (fun s t => s.index < t.index) := by
  refine pairwise_filterMap_of (objectSlot d off) ?_ (List.pairwise_lt_range _)
  intro a b x y hab ha hb
  rw [objectSlot_index d off a x ha, objectSlot_index d off b y hb]
  exact hab

/-- The integer index keys of the decoded sprite list are pairwise
distinct. -/
theorem sprites_keys_nodup (d : DW) (off : Nat) :
    ((spritesFromTable d off).map fun s => (s.index : Int)).Nodup :=
  (sprites_index_pairwise d off).map _ fun _a _b hab => by
    intro hc
    have : _a.index = _b.index := by exact_mod_cast hc
    omega

/-- The integer index keys of the decoded object list are pairwise
distinct. -/
theorem objects_keys_nodup (d : DW) (off : Nat) :
    ((objectsFromTable d off).map fun o => (o.index : Int)).Nodup :=
  (objects_index_pairwise d off).map _ fun _a _b hab => by
    intro hc
    have : _a.index = _b.index := by exact_mod_cast hc
    omega

/-- Lookup in a freshly built dictionary of a record that is a member of
a list with pairwise-distinct keys returns that very record. -/
theorem lookup_dictOf_self {κ α : Type} [DecidableEq κ] (key : α → κ)
    (l : List α) (hnd : (l.map key).Nodup) (s : α) (hs : s ∈ l) :
    (dictOf key id l).lookup (key s) = some s := by
  rw [lookup_dictOf]
  have hnd' : (l.reverse.map key).Nodup := by
    rw [List.map_reverse]
    exact List.nodup_reverse.mpr hnd
  have hsr : s ∈ l.reverse := List.mem_reverse.mpr hs
  rw [find?_key_of_mem key l.reverse hnd' s hsr]
  rfl

/-- Any dictionary hit carries the key it was looked up under. -/
theorem lookup_dictOf_key {κ α : Type} [DecidableEq κ] (key : α → κ)
    (l : List α) (k : κ) (r : α) (h : (dictOf key id l).lookup k = some r) :
    key r = k := by
  rw [lookup_dictOf] at h
  cases hf : l.reverse.find? (fun s => decide (key s = k)) with
  | none => rw [hf] at h; cases h
  | some t =>
    rw [hf] at h
    simp only [Option.map_some', id] at h
    cases h
    have hp := List.find?_some hf
    simp only [decide_eq_true_eq] at hp
    exact hp

/-- C10: after decoding, the catalog's lookup maps agree with the record
lists — every decoded sprite `s` is found in the sprite map under key
`s.index` (and likewise for objects), every decoded record's `index`
field names the pointer-table slot it was decoded from (`index < count`
and re-decoding that slot reproduces the record), and a map lookup never
returns a record whose index differs from the lookup key. -/
theorem C10_catalog_maps (d : DW) (off : Nat) :
    (∀ s ∈ spritesFromTable d off,
      s.index < d.u32 off ∧ spriteSlot d off s.index = some s ∧
      (spriteMapOf (spritesFromTable d off)).lookup (s.index : Int) = some s) ∧
    (∀ (k : Int) (r : Sprite),
      (spriteMapOf (spritesFromTable d off)).lookup k = some r → (r.index : Int) = k) ∧
    (∀ o ∈ objectsFromTable d off,
      o.index < d.u32 off ∧ objectSlot d off o.index = some o ∧
      (objectMapOf (objectsFromTable d off)).lookup (o.index : Int) = some o) ∧
    (∀ (k : Int) (r : GameObject),
      (objectMapOf (objectsFromTable d off)).lookup k = some r → (r.index : Int) = k) := by
  refine ⟨?_, ?_, ?_, ?_⟩
  · intro s hs
    rcases List.mem_filterMap.mp hs with ⟨i, hi, hslot⟩
    have hidx : s.index = i := spriteSlot_index d off i s hslot
    refine ⟨?_, ?_, ?_⟩
    · rw [hidx]; exact List.mem_range.mp hi
    · rw [hidx]; exact hslot
    · simp only [spriteMapOf]
      exact lookup_dictOf_self (fun s => (s.index : Int)) _
        (sprites_keys_nodup d off) s hs
  · intro k r h
    simp only [spriteMapOf] at h
    exact lookup_dictOf_key (fun s => (s.index : Int)) _ k r h
  · intro o ho
    rcases List.mem_filterMap.mp ho with ⟨i, hi, hslot⟩
    have hidx : o.index = i := objectSlot_index d off i o hslot
    refine ⟨?_, ?_, ?_⟩
    · rw [hidx]; exact List.mem_range.mp hi
    · rw [hidx]; exact hslot
    · simp only [objectMapOf]
      exact lookup_dictOf_self (fun o => (o.index : Int)) _
        (objects_keys_nodup d off) o ho
  · intro k r h
    simp only [objectMapOf] at h
    exact lookup_dictOf_key (fun o => (o.index : Int)) _ k r h

/-- Witness for C10 on the concrete two-sprite table `c2wbuf`: the first
decoded sprite is found in the sprite map under its own index, and a
lookup at key 2 (the slot of the second valid pointer) returns a record
indexed 2. -/
theorem C10_catalog_maps_witness :
    (spritesFromTable c2wbuf 0).length = 2 ∧
    ((spritesFromTable c2wbuf 0).headD (decodeSpriteAt c2wbuf 100 0)).index = 0 ∧
    (spriteMapOf (spritesFromTable c2wbuf 0)).lookup ((0 : Nat) : Int) =
      some (decodeSpriteAt c2wbuf 100 0) ∧
    (objectMapOf (objectsFromTable c2wbuf 0)).lookup ((2 : Nat) : Int) =
      some (decodeObjectAt c2wbuf 120 2) := by
  have h := C10_catalog_maps c2wbuf 0
  have hm : decodeSpriteAt c2wbuf 100 0 ∈ spritesFromTable c2wbuf 0 := by decide
  have hmo : decodeObjectAt c2wbuf 120 2 ∈ objectsFromTable c2wbuf 0 := by decide
  have h1 := (h.1 _ hm).2.2
  have h2 := (h.2.2.1 _ hmo).2.2
  exact ⟨by decide, by decide,
    by rw [show ((decodeSpriteAt c2wbuf 100 0).index : Int) = ((0 : Nat) : Int) by decide] at h1
       exact h1,
    by rw [show ((decodeObjectAt c2wbuf 120 2).index : Int) = ((2 : Nat) : Int) by decide] at h2
       exact h2⟩

/-! ### Claim C4: record names -/

/-- A 140-byte buffer: `FORM` header, a `SPRT` chunk with one sprite
whose record sits at offset 40 and whose name pointer (60) is nonzero
but points at a NUL byte. -/
def c4buf : DW :=
  mkDW ([70, 79, 82, 77, 0, 0, 0, 0,
         83, 80, 82, 84, 124, 0, 0, 0,
         1, 0, 0, 0, 40, 0, 0, 0] ++
    List.replicate 16 0 ++ [60, 0, 0, 0] ++ List.replicate 96 0)

/-- Counterexample to C4 as stated: decoding this archive yields a
sprite whose name *is* the empty string — the nonzero name pointer 60
lands on a NUL byte, `c_str` returns the empty string, and no
length-prefixed attempt or synthesis fallback exists for nonzero
pointers in the source. -/
theorem C4_counterexample :
    c4buf.u32 0 = FORMid ∧
    c4buf.u32 40 = 60 ∧
    (60 : Nat) ≠ 0 ∧
    (extractSprites c4buf).map Sprite.name = [[]] := by decide

/-- C4 (amended): name decoding never raises (it is a total function); a
*zero* name pointer synthesizes the nonempty name `"<kind>_<index>"`; a
nonzero name pointer is decoded solely by the bounded null-terminated
read `c_str` (there is no length-prefixed first attempt and no synthesis
fallback for nonzero pointers, so the name may come out empty); the
null-terminated read never returns more than its 200-byte scan window. -/
theorem C4_names (d : DW) (ptr i : Nat) :
    (d.u32 ptr = 0 →
      (decodeSpriteAt d ptr i).name = strBytes ("sprite_" ++ toString i) ∧
      (decodeSpriteAt d ptr i).name ≠ []) ∧
    (d.u32 ptr ≠ 0 → (decodeSpriteAt d ptr i).name = d.cStr (d.u32 ptr)) ∧
    (d.cStr (d.u32 ptr)).length ≤ 200 := by
  refine ⟨fun h0 => ⟨?_, ?_⟩, fun hn => ?_, cStr_length_le d _⟩
  · simp [decodeSpriteAt, h0]
  · have he : (decodeSpriteAt d ptr i).name = strBytes ("sprite_" ++ toString i) := by
      simp [decodeSpriteAt, h0]
    rw [he]
    exact strBytes_append_ne_nil "sprite_" (toString i) (by decide)
  · simp [decodeSpriteAt, hn]

/-- Witness for C4 (amended) on `c4buf`: slot offset 48 holds a zero
pointer (synthesized, nonempty name `"sprite_7"`), while the record at
40 has the nonzero name pointer 60 and gets the bounded null-terminated
read. -/
theorem C4_names_witness :
    c4buf.u32 48 = 0 ∧
    (decodeSpriteAt c4buf 48 7).name = strBytes ("sprite_" ++ toString 7) ∧
    (decodeSpriteAt c4buf 48 7).name ≠ [] ∧
    c4buf.u32 40 ≠ 0 ∧
    (decodeSpriteAt c4buf 40 0).name = c4buf.cStr 60 ∧
    (c4buf.cStr 60).length ≤ 200 := by
  refine ⟨by decide, ((C4_names c4buf 48 7).1 (by decide)).1,
    ((C4_names c4buf 48 7).1 (by decide)).2, by decide, ?_, ?_⟩
  · have h := (C4_names c4buf 40 0).2.1 (by decide)
    rwa [show c4buf.u32 40 = 60 by decide] at h
  · have h := (C4_names c4buf 40 0).2.2
    rwa [show c4buf.u32 40 = 60 by decide] at h

/-! ### Claim C5: sub-list count bounds -/

/-- C5 (amended): only the sprite-frame sub-list is discarded whole when
its declared count reaches the 5000 bound; the room sub-lists are
instead truncated at their bounds — at most 10000 instances, 50000 tiles
and 8 background definitions are decoded per room, partial decode
included. -/
theorem C5_sublist_bounds (d : DW) (ptr i : Nat) :
    (5000 ≤ d.u32 (ptr + 0x38) → (decodeSpriteAt d ptr i).frames = []) ∧
    (decodeRoomAt d ptr i).instances.length ≤ 10000 ∧
    (decodeRoomAt d ptr i).tiles.length ≤ 50000 ∧
    (decodeRoomAt d ptr i).bg_defs.length ≤ 8 := by
  have hbound : ∀ (n bound : Nat) (f : Nat → Option RoomInst),
      ((List.range (min n bound)).filterMap f).length ≤ bound := fun n bound f =>
    le_trans (List.length_filterMap_le _ _)
      (by rw [List.length_range]; exact Nat.min_le_right _ _)
  have hboundT : ∀ (n bound : Nat) (f : Nat → Option RoomTile),
      ((List.range (min n bound)).filterMap f).length ≤ bound := fun n bound f =>
    le_trans (List.length_filterMap_le _ _)
      (by rw [List.length_range]; exact Nat.min_le_right _ _)
  have hboundB : ∀ (n bound : Nat) (f : Nat → Option RoomBgDef),
      ((List.range (min n bound)).filterMap f).length ≤ bound := fun n bound f =>
    le_trans (List.length_filterMap_le _ _)
      (by rw [List.length_range]; exact Nat.min_le_right _ _)
  refine ⟨fun h5 => ?_, ?_, ?_, ?_⟩
  · simp [decodeSpriteAt, Nat.not_lt.mpr h5]
  · simp only [decodeRoomAt]
    split
    · exact hbound _ _ _
    · simp
  · simp only [decodeRoomAt]
    split
    · exact hboundT _ _ _
    · simp
  · simp only [decodeRoomAt]
    split
    · exact hboundB _ _ _
    · simp

/-- A 60-byte buffer of zeros except a declared frame count of 5000 at
offset 0x38 (the frame-count field of a sprite record at pointer 0). -/
def c5wbuf : DW :=
  mkDW (List.replicate 56 0 ++ [136, 19, 0, 0])

/-- Witness for C5 (amended): the concrete frame count 5000 hits the
bound and the whole frame list is discarded; the room bounds hold on the
same concrete buffer. -/
theorem C5_sublist_bounds_witness :
    5000 ≤ c5wbuf.u32 (0 + 0x38) ∧
    (decodeSpriteAt c5wbuf 0 3).frames = [] ∧
    (decodeRoomAt c5wbuf 0 0).instances.length ≤ 10000 :=
  ⟨by decide, (C5_sublist_bounds c5wbuf 0 3).1 (by decide),
   (C5_sublist_bounds c5wbuf 0 0).2.1⟩

/-- A 41000-byte buffer (sparse: zeros outside the listed regions):
`FORM` header, a `ROOM` chunk with one room at offset 40 whose instance
list at offset 200 declares 10001 instances; the first instance pointer
(150) is valid and the remaining 10000 pointers are zero. -/
def c5buf : DW :=
  ⟨fun o =>
    if o < 24 then
      [70, 79, 82, 77, 0, 0, 0, 0,
       82, 79, 79, 77, 24, 160, 0, 0,
       1, 0, 0, 0, 40, 0, 0, 0].getD o 0
    else if o = 88 then 200
    else if o = 200 then 17
    else if o = 201 then 39
    else if o = 204 then 150
    else 0,
   41000⟩

/-- Bytes of the sparse counterexample buffer vanish beyond offset 207. -/
theorem c5buf_byte_zero (o : Nat) (ho : 208 ≤ o) : c5buf.byte o = 0 := by
  simp only [c5buf]
  rw [if_neg (by omega), if_neg (by omega), if_neg (by omega), if_neg (by omega),
    if_neg (by omega)]

/-- 32-bit reads from the all-zero tail of the counterexample buffer. -/
theorem c5buf_u32_zero (o : Nat) (ho : 208 ≤ o) : c5buf.u32 o = 0 := by
  simp only [DW.u32]
  rw [c5buf_byte_zero o ho, c5buf_byte_zero (o + 1) (by omega),
    c5buf_byte_zero (o + 2) (by omega), c5buf_byte_zero (o + 3) (by omega)]

/-- The room of the counterexample buffer decodes with exactly one
instance: the count 10001 is clamped to 10000 iterated slots, slot 0
holds the valid pointer 150 and every later slot reads a zero pointer. -/
theorem c5_room_instances_len : (decodeRoomAt c5buf 40 0).instances.length = 1 := by
  simp only [decodeRoomAt]
  rw [show c5buf.u32 (40 + 0x30) = 200 from by decide]
  rw [if_pos (show (200 : Nat) ≠ 0 ∧ 200 + 4 < c5buf.size from by decide)]
  rw [show c5buf.u32 200 = 10001 from by decide]
  rw [show min 10001 10000 = 10000 from by decide]
  rw [List.length_filterMap_eq_countP]
  rw [show (10000 : Nat) = 9999 + 1 from rfl, List.range_succ_eq_map, List.countP_cons,
    List.countP_map]
  have hz : List.countP
      ((fun j => (if c5buf.u32 (200 + 4 + j * 4) ≠ 0 ∧ c5buf.u32 (200 + 4 + j * 4) + 16 < c5buf.size
        then some (⟨c5buf.i32 (c5buf.u32 (200 + 4 + j * 4)),
                    c5buf.i32 (c5buf.u32 (200 + 4 + j * 4) + 4),
                    c5buf.i32 (c5buf.u32 (200 + 4 + j * 4) + 8),
                    c5buf.u32 (c5buf.u32 (200 + 4 + j * 4) + 12)⟩ : RoomInst)
        else none).isSome) ∘ Nat.succ) (List.range 9999) = 0 := by
    rw [List.countP_eq_zero]
    intro a _ha
    simp only [Function.comp_apply, Nat.succ_eq_add_one]
    rw [c5buf_u32_zero (200 + 4 + (a + 1) * 4) (by omega)]
    simp
  rw [hz]
  rw [show c5buf.u32 (200 + 4 + 0 * 4) = 150 from by decide]
  simp
  decide

/-- The full pipeline decodes exactly the one room at pointer 40. -/
theorem c5_extract_rooms : extractRooms c5buf = [decodeRoomAt c5buf 40 0] := by
  simp only [extractRooms, fromChunk]
  rw [show List.lookup ROOMid c5buf.chunksDict =
      some (⟨0x4D4F4F52, 8, 40984, 16⟩ : Chunk) from by decide]
  show roomsFromTable c5buf 16 = [decodeRoomAt c5buf 40 0]
  rw [roomsFromTable, show c5buf.u32 16 = 1 from by decide]
  have hs : roomSlot c5buf 16 0 = some (decodeRoomAt c5buf 40 0) := by
    simp only [roomSlot]
    rw [show c5buf.u32 (16 + 4 + 0 * 4) = 40 from by decide]
    rw [if_pos (show (40 : Nat) ≠ 0 ∧ 40 + 100 < c5buf.size from by decide)]
  rw [show List.range 1 = [0] from rfl]
  simp [hs]

/-- Counterexample to C5 as stated: a room whose instance sub-list
declares 10001 elements — exceeding the conservative 10000-instance
bound — is *not* discarded whole: the decoder iterates the first 10000
slots and decodes the one valid instance, yielding a nonempty (length 1)
sub-list instead of the empty list the claim requires. -/
theorem C5_counterexample :
    c5buf.u32 0 = FORMid ∧
    c5buf.u32 (40 + 0x30) = 200 ∧
    c5buf.u32 200 = 10001 ∧
    10000 < c5buf.u32 200 ∧
    (extractRooms c5buf).length = 1 ∧
    ((extractRooms c5buf).headD (decodeRoomAt c5buf 40 0)).instances.length = 1 := by
  refine ⟨by decide, by decide, by decide, by decide, ?_, ?_⟩
  · rw [c5_extract_rooms]
    rfl
  · rw [c5_extract_rooms]
    exact c5_room_instances_len

/-! ### Claim C7: tileset cache bounds -/

/-- A background with no atlas region leaves the cache unchanged. -/
theorem tilesetStep_skip (textures : List (Nat × Image)) (m : List (Nat × Image))
    (bg : Background) (htp : bg.tpage = none) : tilesetStep textures m bg = m := by
  unfold tilesetStep
  rw [htp]

/-- The cache step of a background with an atlas region, with the region
match already resolved. -/
theorem tilesetStep_val (textures : List (Nat × Image)) (m : List (Nat × Image))
    (bg : Background) (tpe : TPAGEntry) (htp : bg.tpage = some tpe) :
    tilesetStep textures m bg =
      (match List.lookup tpe.tex_id textures with
      | none => m
      | some tex =>
        if tpe.src_x + tpe.src_w ≤ tex.width ∧ tpe.src_y + tpe.src_h ≤ tex.height then
          dinsert m bg.index
            (tex.crop tpe.src_x tpe.src_y (tpe.src_x + tpe.src_w) (tpe.src_y + tpe.src_h))
        else m) := by
  unfold tilesetStep
  rw [htp]

/-- One cache step never touches the slot of a different background
index. -/
theorem lookup_tilesetStep_ne (textures : List (Nat × Image)) (m : List (Nat × Image))
    (b : Background) (k : Nat) (hbk : b.index ≠ k) :
    (tilesetStep textures m b).lookup k = m.lookup k := by
  cases htp : b.tpage with
  | none => rw [tilesetStep_skip textures m b htp]
  | some tpe =>
    rw [tilesetStep_val textures m b tpe htp]
    cases htex : List.lookup tpe.tex_id textures with
    | none => rfl
    | some tex =>
      simp only
      split
      · rw [lookup_dinsert, if_neg (fun hc => hbk hc.symm)]
      · rfl

/-- Backgrounds whose index differs from the key leave that cache slot
untouched. -/
theorem lookup_tilesetFold_of_ne (textures : List (Nat × Image)) :
    ∀ (bgs : List Background) (m : List (Nat × Image)) (k : Nat),
      (∀ b ∈ bgs, b.index ≠ k) →
      (bgs.foldl (tilesetStep textures) m).lookup k = m.lookup k := by
  intro bgs
  induction bgs with
  | nil => intro m k _; rfl
  | cons b rest ih =>
    intro m k hne
    rw [List.foldl_cons, ih _ k (fun x hx => hne x (List.mem_cons_of_mem b hx))]
    exact lookup_tilesetStep_ne textures m b k (hne b (List.mem_cons_self b rest))

/-- Lookup after the tileset-cache fold, for a background with a unique
index, an atlas region and a present page: exactly the in-bounds crop or
nothing. -/
theorem lookup_tilesetFold (textures : List (Nat × Image)) :
    ∀ (bgs : List Background) (m : List (Nat × Image)) (bg : Background)
      (tpe : TPAGEntry) (tex : Image),
      bg ∈ bgs → (bgs.map Background.index).Nodup →
      bg.tpage = some tpe → List.lookup tpe.tex_id textures = some tex →
      m.lookup bg.index = none →
      (bgs.foldl (tilesetStep textures) m).lookup bg.index =
        (if tpe.src_x + tpe.src_w ≤ tex.width ∧ tpe.src_y + tpe.src_h ≤ tex.height then
          some (tex.crop tpe.src_x tpe.src_y (tpe.src_x + tpe.src_w) (tpe.src_y + tpe.src_h))
        else none) := by
  intro bgs
  induction bgs with
  | nil => intro m bg tpe tex hmem; exact absurd hmem (List.not_mem_nil bg)
  | cons b rest ih =>
    intro m bg tpe tex hmem hnd htp htex hm
    have hnd1 : b.index ∉ rest.map Background.index := (List.nodup_cons.mp hnd).1
    have hnd2 : (rest.map Background.index).Nodup := (List.nodup_cons.mp hnd).2
    rw [List.foldl_cons]
    rcases List.mem_cons.mp hmem with rfl | hmem2
    · have hrest : ∀ x ∈ rest, x.index ≠ bg.index := by
        intro x hx hc
        exact hnd1 (hc ▸ List.mem_map_of_mem Background.index hx)
      rw [lookup_tilesetFold_of_ne textures rest _ _ hrest]
      rw [tilesetStep_val textures m bg tpe htp]
      rw [htex]
      simp only
      split
      · rw [lookup_dinsert, if_pos rfl]
      · exact hm
    · refine ih _ bg tpe tex hmem2 hnd2 htp htex ?_
      have hbne : b.index ≠ bg.index :=
        fun hc => hnd1 (hc ▸ List.mem_map_of_mem Background.index hmem2)
      rw [lookup_tilesetStep_ne textures m b bg.index hbne]
      exact hm

/-- C7: for every background with an atlas region whose texture page is
present, the tileset lookup yields exactly the crop of the declared
region when the crop rectangle lies fully within the page's pixel
bounds, and absent — never a clamped image — otherwise. -/
theorem C7_tileset_bounds (bgs : List Background) (textures : List (Nat × Image))
    (bg : Background) (tpe : TPAGEntry) (tex : Image)
    (hmem : bg ∈ bgs) (hnd : (bgs.map Background.index).Nodup)
    (htp : bg.tpage = some tpe) (htex : List.lookup tpe.tex_id textures = some tex) :
    getTileset (buildTilesetCache bgs textures) bg.index =
      (if tpe.src_x + tpe.src_w ≤ tex.width ∧ tpe.src_y + tpe.src_h ≤ tex.height then
        some (tex.crop tpe.src_x tpe.src_y (tpe.src_x + tpe.src_w) (tpe.src_y + tpe.src_h))
      else none) :=
  lookup_tilesetFold textures bgs [] bg tpe tex hmem hnd htp htex rfl

/-- A 32×32 texture page for the C7 witness. -/
def texC7 : Image := ⟨32, 32, fun x y => (x, y, 0, 255)⟩

/-- An in-bounds 10×10 region at (2,2) of page 0. -/
def tpeC7 : TPAGEntry := ⟨2, 2, 10, 10, 0, 0, 10, 10, 10, 10, 0⟩

/-- An out-of-bounds 10×10 region at (30,30) of page 0 (30+10 > 32). -/
def tpeC7bad : TPAGEntry := ⟨30, 30, 10, 10, 0, 0, 10, 10, 10, 10, 0⟩

/-- Background 0 with the in-bounds region. -/
def bgC7 : Background := ⟨0, strBytes "bg_0", some tpeC7⟩

/-- Background 1 with the out-of-bounds region. -/
def bgC7bad : Background := ⟨1, strBytes "bg_1", some tpeC7bad⟩

/-- Witness for C7: on a concrete catalog, the in-bounds background
caches exactly its crop and the out-of-bounds background stays absent. -/
theorem C7_tileset_bounds_witness :
    getTileset (buildTilesetCache [bgC7, bgC7bad] [(0, texC7)]) 0 =
      some (texC7.crop 2 2 12 12) ∧
    getTileset (buildTilesetCache [bgC7, bgC7bad] [(0, texC7)]) 1 = none := by
  constructor
  · have h := C7_tileset_bounds [bgC7, bgC7bad] [(0, texC7)] bgC7 tpeC7 texC7
      (List.mem_cons_self bgC7 [bgC7bad]) (by decide) rfl rfl
    rw [show bgC7.index = 0 from rfl] at h
    rw [h, if_pos (by decide)]
    rfl
  · have h := C7_tileset_bounds [bgC7, bgC7bad] [(0, texC7)] bgC7bad tpeC7bad texC7
      (List.mem_cons_of_mem bgC7 (List.mem_cons_self bgC7bad []))
      (by decide) rfl rfl
    rw [show bgC7bad.index = 1 from rfl] at h
    rw [h, if_neg (by decide)]

/-! ### Claim C8: sprite frame reconstruction -/

/-- The image `_get_sprite_frame` builds in its main path: the region's
crop pasted at its target offset onto a transparent canvas of the
sprite's declared size. -/
def reconstructedFrame (tex : Image) (tpe : TPAGEntry) (w h : Nat) : Image :=
  pasteOnClear
    (tex.crop tpe.src_x tpe.src_y (tpe.src_x + tpe.src_w) (tpe.src_y + tpe.src_h))
    w h tpe.tgt_x tpe.tgt_y

/-- C8: for a frame region of positive size lying within its present
atlas page, and a sprite of positive declared size, frame reconstruction
returns exactly the declared-size canvas that is transparent everywhere
except the `src_w × src_h` crop pasted at the region's target offset. -/
theorem C8_sprite_frame (textures : List (Nat × Image)) (tpe : TPAGEntry)
    (sprite_w sprite_h : Nat) (tex : Image)
    (htex : List.lookup tpe.tex_id textures = some tex)
    (hw : 0 < tpe.src_w) (hh : 0 < tpe.src_h)
    (hbx : tpe.src_x + tpe.src_w ≤ tex.width) (hby : tpe.src_y + tpe.src_h ≤ tex.height)
    (hsw : 0 < sprite_w) (hsh : 0 < sprite_h) :
    getSpriteFrame textures tpe sprite_w sprite_h =
      some (reconstructedFrame tex tpe sprite_w sprite_h) ∧
    (reconstructedFrame tex tpe sprite_w sprite_h).width = sprite_w ∧
    (reconstructedFrame tex tpe sprite_w sprite_h).height = sprite_h ∧
    (∀ x y, tpe.tgt_x ≤ x → x < tpe.tgt_x + tpe.src_w → tpe.tgt_y ≤ y →
      y < tpe.tgt_y + tpe.src_h →
      (reconstructedFrame tex tpe sprite_w sprite_h).pix x y =
        tex.pix (tpe.src_x + (x - tpe.tgt_x)) (tpe.src_y + (y - tpe.tgt_y))) ∧
    (∀ x y, ¬ (tpe.tgt_x ≤ x ∧ x < tpe.tgt_x + tpe.src_w ∧ tpe.tgt_y ≤ y ∧
        y < tpe.tgt_y + tpe.src_h) →
      (reconstructedFrame tex tpe sprite_w sprite_h).pix x y = clearPix) := by
  have hcw : (tex.crop tpe.src_x tpe.src_y (tpe.src_x + tpe.src_w)
      (tpe.src_y + tpe.src_h)).width = tpe.src_w := by
    simp [Image.crop]
  have hch : (tex.crop tpe.src_x tpe.src_y (tpe.src_x + tpe.src_w)
      (tpe.src_y + tpe.src_h)).height = tpe.src_h := by
    simp [Image.crop]
  refine ⟨?_, rfl, rfl, ?_, ?_⟩
  · unfold getSpriteFrame
    rw [htex]
    simp only
    rw [if_neg (show ¬ (tpe.src_w = 0 ∨ tpe.src_h = 0 ∨ tex.width < tpe.src_x + tpe.src_w ∨
        tex.height < tpe.src_y + tpe.src_h) from by omega)]
    rw [if_pos ⟨hsw, hsh⟩]
    rfl
  · intro x y h1 h2 h3 h4
    have hc : tpe.tgt_x ≤ x ∧
        x < tpe.tgt_x + (tex.crop tpe.src_x tpe.src_y (tpe.src_x + tpe.src_w)
          (tpe.src_y + tpe.src_h)).width ∧
        tpe.tgt_y ≤ y ∧
        y < tpe.tgt_y + (tex.crop tpe.src_x tpe.src_y (tpe.src_x + tpe.src_w)
          (tpe.src_y + tpe.src_h)).height := by
      refine ⟨h1, ?_, h3, ?_⟩
      · rw [hcw]; exact h2
      · rw [hch]; exact h4
    simp only [reconstructedFrame, pasteOnClear]
    rw [if_pos hc]
    rfl
  · intro x y h
    simp only [reconstructedFrame, pasteOnClear]
    rw [if_neg]
    intro hcc
    apply h
    refine ⟨hcc.1, ?_, hcc.2.2.1, ?_⟩
    · rw [← hcw]; exact hcc.2.1
    · rw [← hch]; exact hcc.2.2.2

/-- A 32×32 texture page for the C8 witness. -/
def tex8 : Image := ⟨32, 32, fun x y => (x, y, 7, 255)⟩

/-- The spec's example region: a 10×10 source block at (12,2) with
target offset (5,3) on page 0. -/
def tpe8 : TPAGEntry := ⟨12, 2, 10, 10, 5, 3, 20, 20, 20, 20, 0⟩

/-- Witness for C8 with the spec's example numbers: a 10×10 region with
target (5,3) on a 20×20 sprite yields a 20×20 canvas whose pixels inside
the pasted block come from the atlas crop and are transparent outside. -/
theorem C8_sprite_frame_witness :
    getSpriteFrame [(0, tex8)] tpe8 20 20 = some (reconstructedFrame tex8 tpe8 20 20) ∧
    (reconstructedFrame tex8 tpe8 20 20).width = 20 ∧
    (reconstructedFrame tex8 tpe8 20 20).height = 20 ∧
    (reconstructedFrame tex8 tpe8 20 20).pix 5 3 = tex8.pix 12 2 ∧
    (reconstructedFrame tex8 tpe8 20 20).pix 14 12 = tex8.pix 21 11 ∧
    (reconstructedFrame tex8 tpe8 20 20).pix 0 0 = clearPix ∧
    (reconstructedFrame tex8 tpe8 20 20).pix 15 3 = clearPix := by
  have h := C8_sprite_frame [(0, tex8)] tpe8 20 20 tex8 rfl (by decide) (by decide)
    (by decide) (by decide) (by decide) (by decide)
  refine ⟨h.1, h.2.1, h.2.2.1, ?_, ?_, ?_, ?_⟩
  · exact h.2.2.2.1 5 3 (by decide) (by decide) (by decide) (by decide)
  · exact h.2.2.2.1 14 12 (by decide) (by decide) (by decide) (by decide)
  · exact h.2.2.2.2 0 0 (by decide)
  · exact h.2.2.2.2 15 3 (by decide)

/-! ### Claim C9: raw texture (PNG) extraction -/

/-- C9 (amended): extraction with a valid 8-byte signature follows the
image's own sub-block chain — each visited block lying strictly more
than 12 bytes before the buffer end — and returns exactly the byte range
from the image start through the end of its own `IEND` end-marker block
(the chain stops at the image's *first* end marker, so back-to-back
images are separated correctly); an image whose end marker runs to the
exact end of the buffer is NOT recovered (the loop guard `pos < size -
12` stops first and the result is empty); a bad signature yields the
empty result. -/
theorem C9_png_extraction :
    (∀ (d : DW) (off e : Nat),
      d.slice off (min (off + 8) d.size) = pngSig →
      PngChain d (off + 8) e →
      extractPng d off = d.slice off (min e d.size)) ∧
    (∀ (d : DW) (off : Nat),
      d.slice off (min (off + 8) d.size) ≠ pngSig →
      extractPng d off = []) := by
  constructor
  · intro d off e hsig hchain
    rw [extractPng, if_pos hsig]
    exact pngLoop_of_chain d off hchain d.size (by omega)
  · intro d off hsig
    rw [extractPng, if_neg hsig]

/-- A 45-byte buffer: PNG signature, a 12-byte non-`IEND` sub-block
(type `"ABCD"`), the image's 12-byte `IEND` block ending at offset 32,
then 13 bytes of a following back-to-back image. -/
def c9wbuf : DW :=
  mkDW ([137, 80, 78, 71, 13, 10, 26, 10,
         0, 0, 0, 0, 65, 66, 67, 68, 0, 0, 0, 0,
         0, 0, 0, 0, 73, 69, 78, 68, 9, 9, 9, 9] ++
    List.replicate 13 137)

/-- Witness for C9 (amended): on the concrete buffer the extraction
returns exactly the 32 bytes up to the image's own `IEND` terminator,
not the 45 bytes to the chunk end. -/
theorem C9_png_extraction_witness :
    c9wbuf.slice 0 (min (0 + 8) c9wbuf.size) = pngSig ∧
    PngChain c9wbuf 8 32 ∧
    extractPng c9wbuf 0 = c9wbuf.slice 0 (min 32 c9wbuf.size) ∧
    (extractPng c9wbuf 0).length = 32 := by
  have hfound : PngChain c9wbuf 20 32 := by
    have hf := @PngChain.found c9wbuf 20 (by decide) (by decide)
    rwa [show 20 + 12 + c9wbuf.be32 20 = 32 from by decide] at hf
  have hch : PngChain c9wbuf 8 32 := by
    refine @PngChain.step c9wbuf 8 32 (by decide) (by decide) ?_
    rw [show 8 + 12 + c9wbuf.be32 8 = 20 from by decide]
    exact hfound
  have he : extractPng c9wbuf 0 = c9wbuf.slice 0 (min 32 c9wbuf.size) :=
    C9_png_extraction.1 c9wbuf 0 32 (by decide) hch
  refine ⟨by decide, hch, he, ?_⟩
  rw [he]
  decide

/-- A 20-byte buffer that is exactly one complete minimal PNG: the
signature followed by a single `IEND` block flush with the buffer end. -/
def c9cbuf : DW :=
  mkDW [137, 80, 78, 71, 13, 10, 26, 10,
        0, 0, 0, 0, 73, 69, 78, 68, 1, 2, 3, 4]

/-- Counterexample to C9 as stated: the sub-block walk (as the claim
describes it) reaches this image's own `IEND` end marker at byte 20, so
the claim requires the 20-byte range `[0, 20)`; the source's loop guard
`pos < size - 12` refuses to visit a block whose header starts at
`size - 12`, and extraction returns the empty result instead. -/
theorem C9_counterexample :
    c9cbuf.slice 0 (min (0 + 8) c9cbuf.size) = pngSig ∧
    PngChainSpec c9cbuf 8 20 ∧
    extractPng c9cbuf 0 = [] ∧
    c9cbuf.slice 0 20 ≠ [] := by
  refine ⟨by decide, ?_, by decide, by decide⟩
  have hf := @PngChainSpec.found c9cbuf 8 (by decide) (by decide)
  rwa [show 8 + 12 + c9cbuf.be32 8 = 20 from by decide] at hf

/-! ### Claim C1: draw-list ordering -/

/-- A produced tile entry is a tile item carrying its enumeration index
as both tie-break index and declaration index. -/
theorem tileEntry_facts (depth_min depth_max : Int) (p : Nat × RoomTile) (a : DrawItem)
    (h : tileEntry depth_min depth_max p = some a) :
    a.idx = p.1 ∧ a.isInst = false ∧ a.declIdx = p.1 := by
  unfold tileEntry at h
  split at h
  · cases h; exact ⟨rfl, rfl, rfl⟩
  · cases h

/-- A produced instance entry is an instance item with tie-break index
`100000 + i` and declaration index `i`. -/
theorem instEntry_facts (objMap : List (Int × GameObject)) (show_hidden : Bool)
    (depth_min depth_max : Int) (p : Nat × RoomInst) (a : DrawItem)
    (h : instEntry objMap show_hidden depth_min depth_max p = some a) :
    a.idx = 100000 + p.1 ∧ a.isInst = true ∧ a.declIdx = p.1 := by
  unfold instEntry at h
  cases hq : List.lookup p.2.obj_idx objMap with
  | none => simp [hq] at h
  | some o =>
    simp only [hq] at h
    split at h
    · cases h
      refine ⟨rfl, rfl, ?_⟩
      show 100000 + p.1 - 100000 = p.1
      omega
    · cases h

/-- Every member of the tile part of the draw list is a tile item whose
tie-break index is its position in the room's tile list. -/
theorem tilesPart_facts (depth_min depth_max : Int) (tiles : List RoomTile) :
    ∀ a ∈ tiles.enum.filterMap (tileEntry depth_min depth_max),
      a.isInst = false ∧ a.idx < tiles.length ∧ a.declIdx = a.idx := by
  intro a ha
  rcases List.mem_filterMap.mp ha with ⟨p, hp, hf⟩
  rcases tileEntry_facts depth_min depth_max p a hf with ⟨hidx, hkind, hdecl⟩
  have hlt := List.fst_lt_add_of_mem_enumFrom (show p ∈ tiles.enumFrom 0 from hp)
  exact ⟨hkind, by omega, by rw [hdecl, hidx]⟩

/-- Every member of the instance part of the draw list is an instance
item whose tie-break index is `100000` plus its declaration position. -/
theorem instPart_facts (objMap : List (Int × GameObject)) (show_hidden : Bool)
    (depth_min depth_max : Int) (insts : List RoomInst) :
    ∀ a ∈ insts.enum.filterMap (instEntry objMap show_hidden depth_min depth_max),
      a.isInst = true ∧ 100000 ≤ a.idx ∧ a.declIdx = a.idx - 100000 := by
  intro a ha
  rcases List.mem_filterMap.mp ha with ⟨p, hp, hf⟩
  rcases instEntry_facts objMap show_hidden depth_min depth_max p a hf with ⟨hidx, hkind, hdecl⟩
  exact ⟨hkind, by omega, by omega⟩

/-- Kind and index facts for every member of the merged draw list. -/
theorem drawList_mem_facts (objMap : List (Int × GameObject)) (room : Room)
    (st si sh : Bool) (dmin dmax : Int) :
    ∀ a ∈ buildDrawList objMap room st si sh dmin dmax,
      (a.isInst = false → a.idx < room.tiles.length ∧ a.declIdx = a.idx) ∧
      (a.isInst = true → 100000 ≤ a.idx ∧ a.declIdx = a.idx - 100000) := by
  intro a ha
  unfold buildDrawList at ha
  rcases List.mem_append.mp ha with h | h
  · by_cases hst : st
    · rw [if_pos hst] at h
      rcases tilesPart_facts dmin dmax room.tiles a h with ⟨hkind, hlt, hdecl⟩
      refine ⟨fun _ => ⟨hlt, hdecl⟩, fun hc => ?_⟩
      rw [hkind] at hc
      cases hc
    · rw [if_neg hst] at h
      exact absurd h (List.not_mem_nil a)
  · by_cases hsi : si
    · rw [if_pos hsi] at h
      rcases instPart_facts objMap sh dmin dmax room.instances a h with ⟨hkind, hle, hdecl⟩
      refine ⟨fun hc => ?_, fun _ => ⟨hle, hdecl⟩⟩
      rw [hkind] at hc
      cases hc
    · rw [if_neg hsi] at h
      exact absurd h (List.not_mem_nil a)

/-- The merged draw list carries strictly increasing tie-break indices
(tiles by construction, instances offset by 100000, and the tile count
bound keeps the two ranges disjoint). -/
theorem drawList_idx_pairwise (objMap : List (Int × GameObject)) (room : Room)
    (st si sh : Bool) (dmin dmax : Int) (htiles : room.tiles.length ≤ 100000) :
    (buildDrawList objMap room st si sh dmin dmax).Pairwise
      (fun a b => a.idx < b.idx) := by
  unfold buildDrawList
  rw [List.pairwise_append]
  refine ⟨?_, ?_, ?_⟩
  · by_cases hst : st
    · rw [if_pos hst]
      refine pairwise_filterMap_of (tileEntry dmin dmax) ?_
        (pairwise_fst_lt_enumFrom room.tiles 0)
      intro p q x y hpq hx hy
      rw [(tileEntry_facts dmin dmax p x hx).1, (tileEntry_facts dmin dmax q y hy).1]
      exact hpq
    · rw [if_neg hst]; exact List.Pairwise.nil
  · by_cases hsi : si
    · rw [if_pos hsi]
      refine pairwise_filterMap_of (instEntry objMap sh dmin dmax) ?_
        (pairwise_fst_lt_enumFrom room.instances 0)
      intro p q x y hpq hx hy
      rw [(instEntry_facts objMap sh dmin dmax p x hx).1,
        (instEntry_facts objMap sh dmin dmax q y hy).1]
      omega
    · rw [if_neg hsi]; exact List.Pairwise.nil
  · intro a ha b hb
    have ha2 : a ∈ room.tiles.enum.filterMap (tileEntry dmin dmax) := by
      by_cases hst : st
      · rwa [if_pos hst] at ha
      · rw [if_neg hst] at ha; exact absurd ha (List.not_mem_nil a)
    have hb2 : b ∈ room.instances.enum.filterMap (instEntry objMap sh dmin dmax) := by
      by_cases hsi : si
      · rwa [if_pos hsi] at hb
      · rw [if_neg hsi] at hb; exact absurd hb (List.not_mem_nil b)
    have h1 := (tilesPart_facts dmin dmax room.tiles a ha2).2.1
    have h2 := (instPart_facts objMap sh dmin dmax room.instances b hb2).2.1
    omega

/-- C1 (amended): the sorted draw list is ordered by descending depth
with ties broken by the source's tie-break index (ascending; the index
is the tile's declaration position, or 100000 plus the instance's
declaration position).  Consequently, among equal-depth elements all
tiles precede all instances, and two equal-depth elements of the same
kind appear in ascending declaration order.  The tile-count hypothesis
(guaranteed by the decoder's 50000-tile cap) keeps the tile indices
below the instances' 100000 offset. -/
theorem C1_draw_order (objMap : List (Int × GameObject)) (room : Room)
    (st si sh : Bool) (dmin dmax : Int) (htiles : room.tiles.length ≤ 100000) :
    ∀ (i j : Nat) (a b : DrawItem), i < j →
      (sortedDrawList objMap room st si sh dmin dmax)[i]? = some a →
      (sortedDrawList objMap room st si sh dmin dmax)[j]? = some b →
      (b.depth < a.depth ∨ (a.depth = b.depth ∧ a.idx < b.idx)) ∧
      (a.depth = b.depth → a.isInst = true → b.isInst = true) ∧
      (a.depth = b.depth → a.isInst = b.isInst → a.declIdx < b.declIdx) := by
  intro i j a b hij hia hjb
  have hperm : List.Perm (sortedDrawList objMap room st si sh dmin dmax)
      (buildDrawList objMap room st si sh dmin dmax) :=
    List.perm_insertionSort drawLe _
  have hsorted : (sortedDrawList objMap room st si sh dmin dmax).Pairwise drawLe :=
    List.sorted_insertionSort drawLe _
  rcases List.getElem?_eq_some.mp hia with ⟨hi, hgeti⟩
  rcases List.getElem?_eq_some.mp hjb with ⟨hj, hgetj⟩
  have hle : drawLe a b := by
    have hp := List.pairwise_iff_get.mp hsorted ⟨i, hi⟩ ⟨j, hj⟩ hij
    rw [List.get_eq_getElem, List.get_eq_getElem] at hp
    rwa [hgeti, hgetj] at hp
  have hndB : ((buildDrawList objMap room st si sh dmin dmax).map DrawItem.idx).Nodup :=
    (drawList_idx_pairwise objMap room st si sh dmin dmax htiles).map _
      (fun _a _b h => Nat.ne_of_lt h)
  have hnd : ((sortedDrawList objMap room st si sh dmin dmax).map DrawItem.idx).Nodup :=
    ((hperm.map DrawItem.idx).nodup_iff).mpr hndB
  have hne : a.idx ≠ b.idx := by
    have hlen : ((sortedDrawList objMap room st si sh dmin dmax).map DrawItem.idx).length =
        (sortedDrawList objMap room st si sh dmin dmax).length := List.length_map _ _
    have hp := List.pairwise_iff_get.mp hnd ⟨i, by omega⟩ ⟨j, by omega⟩ hij
    rw [List.get_eq_getElem, List.get_eq_getElem] at hp
    rw [List.getElem_map, List.getElem_map] at hp
    rw [hgeti, hgetj] at hp
    exact hp
  have hord : b.depth < a.depth ∨ (a.depth = b.depth ∧ a.idx < b.idx) := by
    rcases hle with h | ⟨hd, hidx⟩
    · exact Or.inl h
    · exact Or.inr ⟨hd, Nat.lt_of_le_of_ne hidx hne⟩
  have hamem : a ∈ buildDrawList objMap room st si sh dmin dmax := by
    refine hperm.mem_iff.mp ?_
    rw [← hgeti]
    exact List.getElem_mem _
  have hbmem : b ∈ buildDrawList objMap room st si sh dmin dmax := by
    refine hperm.mem_iff.mp ?_
    rw [← hgetj]
    exact List.getElem_mem _
  have hfa := drawList_mem_facts objMap room st si sh dmin dmax a hamem
  have hfb := drawList_mem_facts objMap room st si sh dmin dmax b hbmem
  refine ⟨hord, ?_, ?_⟩
  · intro hdep hainst
    have hidx : a.idx < b.idx := by
      rcases hord with h | ⟨_, h⟩
      · omega
      · exact h
    cases hbk : b.isInst with
    | true => rfl
    | false =>
      have h1 := (hfa.2 hainst).1
      have h2 := (hfb.1 hbk).1
      omega
  · intro hdep hkind
    have hidx : a.idx < b.idx := by
      rcases hord with h | ⟨_, h⟩
      · omega
      · exact h
    cases hak : a.isInst with
    | false =>
      have hbk : b.isInst = false := by rw [← hkind, hak]
      have h1 := (hfa.1 hak).2
      have h2 := (hfb.1 hbk).2
      omega
    | true =>
      have hbk : b.isInst = true := by rw [← hkind, hak]
      have h1 := hfa.2 hak
      have h2 := hfb.2 hbk
      omega

/-- The object of the C1 room: visible, depth 5. -/
def objC1 : GameObject := ⟨0, strBytes "object_0", -1, true, false, 5, -1, -1⟩

/-- The single instance of the C1 room, referencing object 0,
declaration index 0. -/
def instC1 : RoomInst := ⟨0, 0, 0, 0⟩

/-- Tile at declaration index 0, depth 9. -/
def tileC1a : RoomTile := ⟨0, 0, 0, 0, 0, 8, 8, 9, 0, 0, 0, 0⟩

/-- Tile at declaration index 1, depth 5 — the same depth as the
object of instance 0. -/
def tileC1b : RoomTile := ⟨0, 0, 0, 0, 0, 8, 8, 5, 0, 0, 0, 0⟩

/-- The C1 counterexample room: one instance (declaration index 0) and
two tiles, the second of which shares depth 5 with the instance. -/
def roomC1 : Room := ⟨0, strBytes "room_0", 100, 100, 30, 0, [instC1], [], [tileC1a, tileC1b]⟩

/-- The object map of the C1 room. -/
def objMapC1 : List (Int × GameObject) := [(0, objC1)]

/-- Modelled from the spec (claim C1 exactly as stated, for the
refutation): a draw list sorted by descending depth with equal-depth
ties broken by ascending original *declaration* index. -/
def SortedByDepthThenDecl (l : List DrawItem) : Prop :=
  ∀ (i j : Nat) (a b : DrawItem), i < j → l[i]? = some a → l[j]? = some b →
    b.depth < a.depth ∨ (a.depth = b.depth ∧ a.declIdx < b.declIdx)

/-- Counterexample to C1 as stated: in this room the sorted draw list
puts the depth-5 tile (declaration index 1) before the depth-5 instance
(declaration index 0) — the source tie-break key offsets instances by
100000, so an equal-depth tile is always drawn before an equal-depth
instance even when the instance's declaration index is smaller, and the
list is *not* ordered by ascending declaration index among equal-depth
elements. -/
theorem C1_counterexample :
    sortedDrawList objMapC1 roomC1 true true false (-999999999) 999999999 =
      [⟨9, .tile tileC1a, 0⟩, ⟨5, .tile tileC1b, 1⟩, ⟨5, .inst objC1 instC1, 100000⟩] ∧
    ¬ SortedByDepthThenDecl
      (sortedDrawList objMapC1 roomC1 true true false (-999999999) 999999999) := by
  constructor
  · decide
  · intro hs
    have h := hs 1 2 ⟨5, .tile tileC1b, 1⟩ ⟨5, .inst objC1 instC1, 100000⟩
      (by omega) (by decide) (by decide)
    exact absurd h (by decide)

/-- Witness for C1 (amended) on the concrete room: positions 0 and 1 of
the sorted draw list satisfy the descending-depth/ascending-index order. -/
theorem C1_draw_order_witness :
    roomC1.tiles.length ≤ 100000 ∧
    (sortedDrawList objMapC1 roomC1 true true false (-999999999) 999999999)[0]? =
      some ⟨9, .tile tileC1a, 0⟩ ∧
    (sortedDrawList objMapC1 roomC1 true true false (-999999999) 999999999)[1]? =
      some ⟨5, .tile tileC1b, 1⟩ ∧
    (((⟨5, .tile tileC1b, 1⟩ : DrawItem).depth < (⟨9, .tile tileC1a, 0⟩ : DrawItem).depth) ∨
      ((⟨9, .tile tileC1a, 0⟩ : DrawItem).depth = (⟨5, .tile tileC1b, 1⟩ : DrawItem).depth ∧
       (⟨9, .tile tileC1a, 0⟩ : DrawItem).idx < (⟨5, .tile tileC1b, 1⟩ : DrawItem).idx)) := by
  refine ⟨by decide, by decide, by decide, ?_⟩
  exact (C1_draw_order objMapC1 roomC1 true true false (-999999999) 999999999 (by decide)
    0 1 ⟨9, .tile tileC1a, 0⟩ ⟨5, .tile tileC1b, 1⟩ (by omega) (by decide) (by decide)).1

end GM
